import Mathlib

/-!
A shallow embedding of the simulation core of the arcade shooter in
`src/main.rs` (player ship, player bullets, enemies, enemy bullets,
scoring, high-score persistence and the game state machine).

Real-valued quantities (`f32` / `f64` in the source) are modelled as
rationals; machine integers (`u32`, `usize`) as `Nat`.  Rendering,
audio, sprite animation and shader bookkeeping are omitted: they do not
influence the simulation state.  Randomness and key input are modelled
as oracle fields of a per-frame input record, so every frame function is
a pure function of the previous state and that input.
-/

namespace BG

/-- Colors never enter collision or scoring logic; we model them as
palette indices. -/
abbrev Color := Nat

/-- Palette index standing for the macroquad color `GOLD`. -/
def GOLD : Color := 0

/-- Palette index standing for the macroquad color `RED`. -/
def RED : Color := 1

/-- Constant `MOVEMENT_SPEED` from `main.rs` (px/s). -/
def MOVEMENT_SPEED : ℚ := 400

/-- Constant `BALL_RADIUS` from `main.rs`. -/
def BALL_RADIUS : ℚ := 16

/-- Constant `MAX_BULLETS_PER_SECOND` from `main.rs`. -/
def MAX_BULLETS_PER_SECOND : ℚ := 4

/-- Local `base_width` from `main` (the reference screen width 750). -/
def base_width : ℚ := 750

/-- Local `base_enemies` from `main`. -/
def base_enemies : ℚ := 30

/-- The `Shape` struct from `main.rs`. -/
structure Shape where
  size : ℚ
  speed : ℚ
  x : ℚ
  y : ℚ
  w : ℚ
  h : ℚ
  color : Color
  collided : Bool
deriving Repr, DecidableEq

/-- Model of macroquad's `Rect` (only the fields the game uses). -/
structure GRect where
  x : ℚ
  y : ℚ
  w : ℚ
  h : ℚ
deriving Repr, DecidableEq

/-- Model of macroquad's `Rect::overlaps` (standard AABB overlap test:
left ≤ other.right, right ≥ other.left, top ≤ other.bottom,
bottom ≥ other.top). -/
def GRect.overlaps (a b : GRect) : Bool :=
  decide (a.x ≤ b.x + b.w) && decide (a.x + a.w ≥ b.x) &&
    decide (a.y ≤ b.y + b.h) && decide (a.y + a.h ≥ b.y)

/-- The `Shape::rect` method: origin offset by `size / 2`, extents taken
from the render width/height `w`, `h`. -/
def Shape.rect (s : Shape) : GRect :=
  { x := s.x - s.size / 2, y := s.y - s.size / 2, w := s.w, h := s.h }

/-- The `Shape::collides_with` method (AABB overlap of the two bounding
rectangles). -/
def Shape.collides_with (s other : Shape) : Bool :=
  s.rect.overlaps other.rect

/-- The `Shape::collides_with_circle` method: `self` is treated as an
axis-aligned square of side `self.size`, `circle` as a circle of
diameter `circle.size`. -/
def Shape.collides_with_circle (s circle : Shape) : Bool :=
  let half := s.size / 2
  let dx := max (abs (s.x - circle.x)) half - half
  let dy := max (abs (s.y - circle.y)) half - half
  decide (dx * dx + dy * dy ≤ circle.size * circle.size / 4)

/-- The `Enemy` struct from `main.rs`. -/
structure Enemy where
  id : Nat
  shape : Shape
  bullet_count : Nat
deriving Repr, DecidableEq

/-- The `EnemyBullet` struct from `main.rs`. -/
structure EnemyBullet where
  enemy_id : Nat
  shape : Shape
deriving Repr, DecidableEq

/-- Model of a particle `Emitter` paired with its spawn coordinates: we
keep the fields the simulation reads or sets (`amount`, the position the
explosion was pushed at, and the `config.emitting` flag used by the
prune pass). -/
structure Explosion where
  amount : Nat
  x : ℚ
  y : ℚ
  emitting : Bool
deriving Repr, DecidableEq

/-- The `GameState` enum from `main.rs`. -/
inductive GameState where
  | MainMenu
  | Playing
  | Paused
  | GameOver
deriving Repr, DecidableEq

/-- The mutable locals of `main` that carry simulation state from one
frame to the next. -/
structure GameVars where
  score : Nat
  high_score : Nat
  high_score_beaten : Bool
  last_bullet_time : ℚ
  enemies : List Enemy
  next_enemy_id : Nat
  bullets : List Shape
  enemy_bullets : List EnemyBullet
  explosions : List Explosion
  circle : Shape
  game_state : GameState
deriving Repr, DecidableEq

/-- Per-frame oracle input: elapsed/absolute time, screen dimensions,
the keys read this frame, the menu button clicked, and the values the
random number generator would return if consulted. -/
structure FrameInput where
  delta_time : ℚ
  current_time : ℚ
  screen_width : ℚ
  screen_height : ℚ
  key_left : Bool
  key_right : Bool
  key_up : Bool
  key_down : Bool
  escape_pressed : Bool
  space_pressed : Bool
  play_clicked : Bool
  spawn_roll : Nat
  size_draw : ℚ
  speed_draw : ℚ
  x_draw : ℚ
  color_draw : Color
deriving Repr, DecidableEq

/-- Rounding of a positive `f32` as in Rust's `f32::round` followed by
`as u32` (round half away from zero; the game only rounds positive
sizes). -/
def roundNat (q : ℚ) : Nat := (Int.floor (q + 1 / 2)).toNat

/-- The `max_enemies` computation from the frame loop:
`(base_enemies as f32 * scale).floor() as usize` with
`scale = screen_width / base_width`. -/
def maxEnemies (W : ℚ) : Nat := (Int.floor (base_enemies * (W / base_width))).toNat

/-- Escape-key check at the top of the `Playing` arm: sets the state to
`Paused` (the rest of the frame still runs this frame). -/
def pausePhase (i : FrameInput) (v : GameVars) : GameVars :=
  if i.escape_pressed then { v with game_state := GameState.Paused } else v

/-- Ship movement and screen clamp from the `Playing` arm: direction is
derived from held keys (left takes priority over right, up over down),
each axis moves by `min (delta_time * MOVEMENT_SPEED) |dir|`, then the
position is clamped to `[BALL_RADIUS, screen - BALL_RADIUS]` on each
axis. -/
def movePhase (i : FrameInput) (v : GameVars) : GameVars :=
  let mms := i.delta_time * MOVEMENT_SPEED
  let dirx : ℚ := if i.key_left then -MOVEMENT_SPEED
    else if i.key_right then MOVEMENT_SPEED else 0
  let diry : ℚ := if i.key_up then -MOVEMENT_SPEED
    else if i.key_down then MOVEMENT_SPEED else 0
  let x1 := if dirx < 0 then v.circle.x - min mms (abs dirx) else v.circle.x
  let x2 := if dirx > 0 then x1 + min mms dirx else x1
  let y1 := if diry > 0 then v.circle.y + min mms diry else v.circle.y
  let y2 := if diry < 0 then y1 - min mms (abs diry) else y1
  let xc := max (min x2 (i.screen_width - BALL_RADIUS)) BALL_RADIUS
  let yc := max (min y2 (i.screen_height - BALL_RADIUS)) BALL_RADIUS
  { v with circle := { v.circle with x := xc, y := yc } }

/-- Player fire-rate limiter from the `Playing` arm: when
`current_time - last_bullet_time > 1 / MAX_BULLETS_PER_SECOND`, push a
bullet of size 32 at `(circle.x, circle.y - 24)` with twice the ship's
speed and record the fire time.  The sprite-ratio computation
`sprite_w * size / sprite_w` collapses to `size` exactly. -/
def firePhase (i : FrameInput) (v : GameVars) : GameVars :=
  if i.current_time - v.last_bullet_time > 1 / MAX_BULLETS_PER_SECOND then
    { v with
      last_bullet_time := i.current_time
      bullets := v.bullets ++
        [{ size := 32, speed := v.circle.speed * 2, x := v.circle.x,
           y := v.circle.y - 24, w := 32, h := 32, color := GOLD,
           collided := false }] }
  else v

/-- Enemy spawner from the `Playing` arm: when the enemy count is below
`maxEnemies` and the random roll is at least 95, push one enemy built
from the oracle draws (size scaled by `screen_width / base_width`,
`y = -size`, fresh identifier) and bump the identifier counter. -/
def spawnPhase (i : FrameInput) (v : GameVars) : GameVars :=
  if v.enemies.length < maxEnemies i.screen_width ∧ 95 ≤ i.spawn_roll then
    let scale := i.screen_width / base_width
    let size := i.size_draw * scale
    { v with
      enemies := v.enemies ++
        [{ id := v.next_enemy_id, bullet_count := 0,
           shape := { size := size, speed := i.speed_draw, x := i.x_draw,
                      y := -size, w := size, h := size,
                      color := i.color_draw, collided := false } }]
      next_enemy_id := v.next_enemy_id + 1 }
  else v

/-- Movement integration from the `Playing` arm: enemies and enemy
bullets fall (`y += speed * delta_time`), player bullets rise
(`y -= speed * delta_time`). -/
def integratePhase (i : FrameInput) (v : GameVars) : GameVars :=
  { v with
    enemies := v.enemies.map fun e =>
      { e with shape := { e.shape with y := e.shape.y + e.shape.speed * i.delta_time } }
    bullets := v.bullets.map fun b => { b with y := b.y - b.speed * i.delta_time }
    enemy_bullets := v.enemy_bullets.map fun b =>
      { b with shape := { b.shape with y := b.shape.y + b.shape.speed * i.delta_time } } }

/-- Ship-versus-enemy check from the `Playing` arm: if any enemy square
overlaps the ship circle, persist the score when it ties the high score
and move to `GameOver`.  The returned list holds the values passed to
`save_high_score` this phase. -/
def shipHitPhase (v : GameVars) : GameVars × List Nat :=
  if v.enemies.any fun e => e.shape.collides_with_circle v.circle then
    ({ v with game_state := GameState.GameOver },
     if v.score = v.high_score then [v.score] else [])
  else (v, [])

/-- Result of running one enemy's inner bullet loop. -/
structure InnerRes where
  bullets : List Shape
  score : Nat
  high_score : Nat
  beaten : Bool
  newExpl : List Explosion
  hit : Bool
deriving Repr, DecidableEq

/-- The explosion pushed for a bullet/enemy overlap: `amount` is twice
the rounded enemy size and the position is the bullet's. -/
def mkExpl (eshape b : Shape) : Explosion :=
  { amount := roundNat eshape.size * 2, x := b.x, y := b.y, emitting := true }

/-- Inner loop of the resolver: walk the player bullets in order; on
overlap with the enemy's rectangle mark the bullet, add the rounded
enemy size to the score, update high score and beaten flag when the new
score exceeds the high score, and push an explosion at the bullet's
position.  `hit` records whether any bullet overlapped (the enemy's
`collided` flag is set by the caller). -/
def innerBullets (eshape : Shape) (score high_score : Nat) (beaten : Bool) :
    List Shape → InnerRes
  | [] => { bullets := [], score := score, high_score := high_score,
            beaten := beaten, newExpl := [], hit := false }
  | b :: bs =>
    if b.collides_with eshape then
      let score' := score + roundNat eshape.size
      let hs' := if score' > high_score then score' else high_score
      let beaten' := if score' > high_score then true else beaten
      let r := innerBullets eshape score' hs' beaten' bs
      { bullets := { b with collided := true } :: r.bullets, score := r.score,
        high_score := r.high_score, beaten := r.beaten,
        newExpl := mkExpl eshape b :: r.newExpl, hit := true }
    else
      let r := innerBullets eshape score high_score beaten bs
      { bullets := b :: r.bullets, score := r.score, high_score := r.high_score,
        beaten := r.beaten, newExpl := r.newExpl, hit := r.hit }

/-- Firing condition of an enemy: the ship's x strictly inside the
enemy's horizontal extent and no live bullet owned yet. -/
def fireCond (circle : Shape) (e : Enemy) : Bool :=
  decide (circle.x > e.shape.x - e.shape.w / 2) &&
    decide (circle.x < e.shape.x + e.shape.w / 2) && decide (e.bullet_count < 1)

/-- The enemy bullet an enemy fires: spawned at the enemy's bottom edge
with triple its speed, size 16. -/
def mkEnemyBullet (e : Enemy) : EnemyBullet :=
  { enemy_id := e.id,
    shape := { x := e.shape.x, y := e.shape.y + e.shape.size / 2, w := 16,
               h := 16, speed := e.shape.speed * 3, color := RED, size := 16,
               collided := false } }

/-- Result of the outer enemy loop of the resolver. -/
structure ResolveRes where
  enemies : List Enemy
  bullets : List Shape
  score : Nat
  high_score : Nat
  beaten : Bool
  newExpl : List Explosion
  newEnemyBullets : List EnemyBullet
deriving Repr, DecidableEq

/-- Outer loop of the resolver (`for enemy in enemies.iter_mut()`): run
the inner bullet loop for each enemy in order, mark the enemy when any
bullet hit it, then run its fire check (spawning at most one enemy
bullet and incrementing its `bullet_count`). -/
def resolveEnemies (circle : Shape) (score high_score : Nat) (beaten : Bool) :
    List Enemy → List Shape → ResolveRes
  | [], bullets =>
    { enemies := [], bullets := bullets, score := score,
      high_score := high_score, beaten := beaten, newExpl := [],
      newEnemyBullets := [] }
  | e :: es, bullets =>
    let r := innerBullets e.shape score high_score beaten bullets
    let e1 := if r.hit then { e with shape := { e.shape with collided := true } } else e
    let fired := fireCond circle e1
    let e2 := if fired then { e1 with bullet_count := e1.bullet_count + 1 } else e1
    let newEB := if fired then [mkEnemyBullet e1] else []
    let rest := resolveEnemies circle r.score r.high_score r.beaten es r.bullets
    { enemies := e2 :: rest.enemies, bullets := rest.bullets,
      score := rest.score, high_score := rest.high_score,
      beaten := rest.beaten, newExpl := r.newExpl ++ rest.newExpl,
      newEnemyBullets := newEB ++ rest.newEnemyBullets }

/-- The combined enemy loop of the `Playing` arm applied to the game
variables. -/
def resolvePhase (v : GameVars) : GameVars :=
  let r := resolveEnemies v.circle v.score v.high_score v.high_score_beaten
    v.enemies v.bullets
  { v with
    enemies := r.enemies
    bullets := r.bullets
    score := r.score
    high_score := r.high_score
    high_score_beaten := r.beaten
    explosions := v.explosions ++ r.newExpl
    enemy_bullets := v.enemy_bullets ++ r.newEnemyBullets }

/-- Enemy-bullet-versus-ship loop: every overlapping enemy bullet saves
the score when it ties the high score and sets the state to `GameOver`.
Returns whether any bullet hit and the list of saved values, in loop
order. -/
def ebHitLoop (circle : Shape) (score high_score : Nat) :
    List EnemyBullet → Bool × List Nat
  | [] => (false, [])
  | b :: bs =>
    let rest := ebHitLoop circle score high_score bs
    if b.shape.collides_with circle then
      (true, (if score = high_score then [score] else []) ++ rest.2)
    else rest

/-- Enemy-bullet-versus-ship phase of the `Playing` arm. -/
def ebHitPhase (v : GameVars) : GameVars × List Nat :=
  let r := ebHitLoop v.circle v.score v.high_score v.enemy_bullets
  (if r.1 then { v with game_state := GameState.GameOver } else v, r.2)

/-- The `enemy.bullet_count -= 1` bookkeeping of the prune pass:
decrement the first enemy whose identifier matches (Rust's
`iter_mut().find`); no effect when no enemy matches.  The Boolean
records whether a decrement was attempted on a count that is already 0,
i.e. whether the `usize` subtraction in the source would underflow. -/
def decFirst : List Enemy → Nat → List Enemy × Bool
  | [], _ => ([], false)
  | e :: es, id =>
    if e.id = id then
      ({ e with bullet_count := e.bullet_count - 1 } :: es, e.bullet_count = 0)
    else
      let r := decFirst es id
      (e :: r.1, r.2)

/-- The `enemy_bullets.retain(...)` pass: keep bullets with
`y < screen_height + size`; for each dropped bullet decrement its
owner's `bullet_count` via `decFirst`.  Also reports whether any
decrement underflowed. -/
def pruneEB (H : ℚ) : List EnemyBullet → List Enemy →
    List EnemyBullet × List Enemy × Bool
  | [], es => ([], es, false)
  | b :: bs, es =>
    if b.shape.y < H + b.shape.size then
      let r := pruneEB H bs es
      (b :: r.1, r.2.1, r.2.2)
    else
      let d := decFirst es b.enemy_id
      let r := pruneEB H bs d.1
      (r.1, r.2.1, d.2 || r.2.2)

/-- The lifecycle pruning block of the `Playing` arm, in source order:
enemy-bullet expiry (with owner decrement), off-screen enemies,
off-screen player bullets, collided enemies, collided player bullets,
finished explosions.  The Boolean output is the underflow report of
`pruneEB`. -/
def prunePhase (i : FrameInput) (v : GameVars) : GameVars × Bool :=
  let p := pruneEB i.screen_height v.enemy_bullets v.enemies
  let es1 := p.2.1.filter fun e => decide (e.shape.y < i.screen_height + e.shape.size)
  let bs1 := v.bullets.filter fun b => decide (b.y > 0 - b.size / 2)
  let es2 := es1.filter fun e => !e.shape.collided
  let bs2 := bs1.filter fun b => !b.collided
  let ex := v.explosions.filter fun e => e.emitting
  ({ v with enemies := es2, bullets := bs2, enemy_bullets := p.1,
            explosions := ex }, p.2.2)

/-- Observable outcome of one frame: the new game variables, the values
passed to `save_high_score`, and whether the prune pass attempted a
`usize` underflow. -/
structure FrameOut where
  vars : GameVars
  saves : List Nat
  underflow : Bool
deriving Repr, DecidableEq

/-- The part of the `Playing` arm that runs before the collision
checks: escape handling, ship movement and clamp, fire limiter, enemy
spawn, and movement integration, in source order. -/
def preCollisionVars (i : FrameInput) (v : GameVars) : GameVars :=
  integratePhase i (spawnPhase i (firePhase i (movePhase i (pausePhase i v))))

/-- One frame of the `Playing` arm of `main`, phases in source order. -/
def playingFrame (i : FrameInput) (v : GameVars) : FrameOut :=
  let v5 := preCollisionVars i v
  let s6 := shipHitPhase v5
  let v7 := resolvePhase s6.1
  let s8 := ebHitPhase v7
  let s9 := prunePhase i s8.1
  { vars := s9.1, saves := s6.2 ++ s8.2, underflow := s9.2 }

/-- One frame of the `MainMenu` arm: the score and beaten flag are reset
every menu frame; clicking Play clears every entity collection and the
explosions, puts the ship at the fixed start position and enters
`Playing`. -/
def mainMenuFrame (i : FrameInput) (v : GameVars) : GameVars :=
  let v1 := { v with score := 0, high_score_beaten := false }
  if i.play_clicked then
    { v1 with
      enemies := [], bullets := [], enemy_bullets := [], explosions := [],
      circle :=
        { v1.circle with x := i.screen_width / 2, y := i.screen_height - v1.circle.size },
      game_state := GameState.Playing }
  else v1

/-- One frame of the `Paused` arm: Space resumes; nothing else of the
simulation state changes. -/
def pausedFrame (i : FrameInput) (v : GameVars) : GameVars :=
  if i.space_pressed then { v with game_state := GameState.Playing } else v

/-- One frame of the `GameOver` arm: Space or Escape returns to the main
menu. -/
def gameOverFrame (i : FrameInput) (v : GameVars) : GameVars :=
  if i.space_pressed || i.escape_pressed then
    { v with game_state := GameState.MainMenu }
  else v

/-- One frame of the whole game loop: dispatch on the current state. -/
def gameFrame (i : FrameInput) (v : GameVars) : FrameOut :=
  match v.game_state with
  | GameState.MainMenu => { vars := mainMenuFrame i v, saves := [], underflow := false }
  | GameState.Playing => playingFrame i v
  | GameState.Paused => { vars := pausedFrame i v, saves := [], underflow := false }
  | GameState.GameOver => { vars := gameOverFrame i v, saves := [], underflow := false }

/-- States reachable during play: reached by clicking Play on the main
menu, then closed under arbitrary frames of the game loop. -/
inductive Reachable : GameVars → Prop
  | enter (i : FrameInput) (v : GameVars) (h : i.play_clicked = true) :
      Reachable (mainMenuFrame i v)
  | step (i : FrameInput) (v : GameVars) (hv : Reachable v) :
      Reachable (gameFrame i v).vars

/-- Clamp of a value into `[lo, hi]`. -/
def clampQ (x lo hi : ℚ) : ℚ := max lo (min x hi)

/-- The spec's reading of the ship-versus-enemy test: the squared
distance from the circle's center to the clamped nearest point of the
square (side length `sq.size`) is at most `(circle.size / 2) ^ 2`.
Stated for comparison with `Shape.collides_with_circle`, which is
translated from the source. -/
def specCircleSquareTest (circle sq : Shape) : Prop :=
  (circle.x - clampQ circle.x (sq.x - sq.size / 2) (sq.x + sq.size / 2)) ^ 2 +
      (circle.y - clampQ circle.y (sq.y - sq.size / 2) (sq.y + sq.size / 2)) ^ 2 ≤
    (circle.size / 2) ^ 2

/-- Sample ship shape used in concrete test states (the real ship: size
`BALL_RADIUS * 2`, speed `MOVEMENT_SPEED`). -/
def ship0 : Shape :=
  { size := 32, speed := 400, x := 100, y := 100, w := 32, h := 32,
    color := GOLD, collided := false }

/-- Sample enemy square of size 40 centered at the ship's position. -/
def eSq40 : Shape :=
  { size := 40, speed := 100, x := 100, y := 100, w := 40, h := 40,
    color := 2, collided := false }

/-- Sample enemy of size 40 overlapping the ship. -/
def enemy40 : Enemy := { id := 0, shape := eSq40, bullet_count := 0 }

/-- A second sample enemy, shifted right, still overlapping `bullet32`. -/
def enemy40b : Enemy :=
  { id := 1, bullet_count := 0,
    shape := { size := 40, speed := 100, x := 110, y := 100, w := 40, h := 40,
               color := 3, collided := false } }

/-- Sample player bullet at (100, 100). -/
def bullet32 : Shape :=
  { size := 32, speed := 800, x := 100, y := 100, w := 32, h := 32,
    color := GOLD, collided := false }

/-- A quiet frame input: no keys, no clicks, no fire interval elapsed,
no spawn roll success, screen 750 × 600. -/
def input0 : FrameInput :=
  { delta_time := 0, current_time := 0, screen_width := 750,
    screen_height := 600, key_left := false, key_right := false,
    key_up := false, key_down := false, escape_pressed := false,
    space_pressed := false, play_clicked := false, spawn_roll := 0,
    size_draw := 40, speed_draw := 100, x_draw := 100, color_draw := 2 }

/-- A baseline Playing state with no entities. -/
def vars0 : GameVars :=
  { score := 0, high_score := 0, high_score_beaten := false,
    last_bullet_time := 0, enemies := [], next_enemy_id := 0, bullets := [],
    enemy_bullets := [], explosions := [], circle := ship0,
    game_state := GameState.Playing }

/-- A Playing state with one enemy square sitting on the ship. -/
def varsHit : GameVars := { vars0 with enemies := [enemy40] }

/-- A frame input whose fire interval has elapsed. -/
def inputFire : FrameInput := { input0 with current_time := 1 }

/-- A Paused state still holding an enemy from the interrupted life. -/
def varsPaused : GameVars :=
  { vars0 with enemies := [enemy40], game_state := GameState.Paused }

/-- A frame input pressing Space (resume). -/
def inputResume : FrameInput := { input0 with space_pressed := true }

/-- A MainMenu state with stale entities and score from a previous
life. -/
def varsMenu : GameVars :=
  { vars0 with enemies := [enemy40], bullets := [bullet32], score := 5,
               game_state := GameState.MainMenu }

/-- A frame input clicking the Play button. -/
def inputPlay : FrameInput := { input0 with play_clicked := true }

/-- Scenario state: one enemy of size 40 overlapped by one player
bullet. -/
def varsC3 : GameVars := { vars0 with enemies := [enemy40], bullets := [bullet32] }

/-- Two enemies both overlapping the same single player bullet. -/
def varsC5 : GameVars :=
  { vars0 with enemies := [enemy40, enemy40b], bullets := [bullet32] }

/-- Net effect of the resolver's outer loop on a single enemy: marked
collided when some player bullet overlaps it, then the fire check
applies. -/
def resolveEnemyStep (circle : Shape) (bs : List Shape) (e : Enemy) : Enemy :=
  let e1 := if bs.any fun b => b.collides_with e.shape then
    { e with shape := { e.shape with collided := true } } else e
  if fireCond circle e1 then { e1 with bullet_count := e1.bullet_count + 1 } else e1

/-- Total score the resolver adds: one rounded enemy size per
overlapping enemy/bullet pair. -/
def pairScore (es : List Enemy) (bs : List Shape) : Nat :=
  (es.map fun e =>
    (bs.countP fun b => b.collides_with e.shape) * roundNat e.shape.size).sum

/-- Number of live enemy bullets owned by the enemy with identifier
`id`. -/
def ownedCount (ebs : List EnemyBullet) (id : Nat) : Nat :=
  ebs.countP fun b => decide (b.enemy_id = id)

/-- Exact bookkeeping invariant: every live enemy's `bullet_count`
equals the number of live enemy bullets it owns. -/
def CountInv (es : List Enemy) (ebs : List EnemyBullet) : Prop :=
  ∀ e ∈ es, e.bullet_count = ownedCount ebs e.id

/-- Cap invariant: no enemy owns more than one live bullet. -/
def CountLe (es : List Enemy) : Prop := ∀ e ∈ es, e.bullet_count ≤ 1

/-- Identifier discipline: live enemy identifiers are pairwise distinct
and below the next-identifier counter, as are all bullet owner
identifiers. -/
def IdsOk (es : List Enemy) (ebs : List EnemyBullet) (next : Nat) : Prop :=
  es.Pairwise (fun a b => a.id ≠ b.id) ∧ (∀ e ∈ es, e.id < next) ∧
    ∀ b ∈ ebs, b.enemy_id < next

/-- The inductive invariant of a life. -/
def GoodState (v : GameVars) : Prop :=
  CountInv v.enemies v.enemy_bullets ∧ CountLe v.enemies ∧
    IdsOk v.enemies v.enemy_bullets v.next_enemy_id

/-- The key-value store behind `quad_storage`: an association list of
string keys and string values. -/
abbrev Store := List (String × String)

/-- Lookup in the store. -/
def storeGet (st : Store) (k : String) : Option String :=
  match st with
  | [] => none
  | (k1, v1) :: rest => if k1 = k then some v1 else storeGet rest k

/-- Update in the store (replace the first binding, or append). -/
def storeSet (st : Store) (k v : String) : Store :=
  match st with
  | [] => [(k, v)]
  | (k1, v1) :: rest =>
    if k1 = k then (k, v) :: rest else (k1, v1) :: storeSet rest k v

/-- Decimal digits of `n`, least significant first (empty for 0). -/
def natDigitsRev (n : Nat) : List Nat :=
  if h : n = 0 then [] else n % 10 :: natDigitsRev (n / 10)
decreasing_by exact Nat.div_lt_self (Nat.pos_of_ne_zero h) (by norm_num)

/-- Rust's `u32::to_string`: base-10 decimal encoding. -/
def u32ToString (n : Nat) : String :=
  if n = 0 then "0"
  else String.mk ((natDigitsRev n).reverse.map fun d => Char.ofNat (48 + d))

/-- Digit value of a character, when it is a decimal digit. -/
def charDigit (c : Char) : Option Nat :=
  if 48 ≤ c.toNat ∧ c.toNat ≤ 57 then some (c.toNat - 48) else none

/-- Accumulating loop of Rust's `u32::from_str`: `acc * 10 + digit`
checked against the `u32` bound. -/
def parseGo : List Char → Nat → Option Nat
  | [], acc => some acc
  | c :: cs, acc =>
    match charDigit c with
    | none => none
    | some d =>
      if acc * 10 + d < 4294967296 then parseGo cs (acc * 10 + d) else none

/-- Rust's `str::parse::<u32>`: optional leading plus sign, at least one
digit, overflow is an error. -/
def parseU32 (s : String) : Option Nat :=
  match s.data with
  | [] => none
  | c :: rest =>
    if c = '+' then
      match rest with
      | [] => none
      | _ => parseGo rest 0
    else parseGo (c :: rest) 0

/-- The `save_high_score` function from `main.rs`: store the decimal
string under the "highscore" key. -/
def save_high_score (score : Nat) (st : Store) : Store :=
  storeSet st "highscore" (u32ToString score)

/-- The `load_high_score` function from `main.rs`: read the "highscore"
key, defaulting a missing key to "0", then parse; a malformed stored
value makes the parse fail and the `unwrap` panic, modelled as `none`. -/
def load_high_score (st : Store) : Option Nat :=
  parseU32 ((storeGet st "highscore").getD "0")

/-- Big-endian value of a digit list. -/
def digitsVal : List Nat → Nat
  | [] => 0
  | d :: ds => d * 10 ^ ds.length + digitsVal ds

end BG

namespace BG

/-- Clamping as the source writes it (`x.min hi |>.max lo`) lands inside
`[lo, hi]` whenever `lo ≤ hi`. -/
theorem clamp_mem (x lo hi : ℚ) (h : lo ≤ hi) :
    lo ≤ max (min x hi) lo ∧ max (min x hi) lo ≤ hi :=
  ⟨le_max_right _ _, max_le (min_le_right _ _) h⟩

theorem pausePhase_circle (i : FrameInput) (v : GameVars) :
    (pausePhase i v).circle = v.circle := by
  unfold pausePhase; split <;> rfl

theorem firePhase_circle (i : FrameInput) (v : GameVars) :
    (firePhase i v).circle = v.circle := by
  unfold firePhase; split <;> rfl

theorem spawnPhase_circle (i : FrameInput) (v : GameVars) :
    (spawnPhase i v).circle = v.circle := by
  unfold spawnPhase; split <;> rfl

theorem integratePhase_circle (i : FrameInput) (v : GameVars) :
    (integratePhase i v).circle = v.circle := rfl

theorem shipHitPhase_circle (v : GameVars) :
    (shipHitPhase v).1.circle = v.circle := by
  unfold shipHitPhase; split <;> rfl

theorem resolvePhase_circle (v : GameVars) :
    (resolvePhase v).circle = v.circle := rfl

theorem ebHitPhase_circle (v : GameVars) :
    (ebHitPhase v).1.circle = v.circle := by
  unfold ebHitPhase
  dsimp only
  split <;> rfl

theorem prunePhase_circle (i : FrameInput) (v : GameVars) :
    (prunePhase i v).1.circle = v.circle := rfl

/-- The ship is not moved after the movement-and-clamp step: the frame's
final ship equals the ship right after `movePhase`. -/
theorem playingFrame_circle (i : FrameInput) (v : GameVars) :
    (playingFrame i v).vars.circle = (movePhase i (pausePhase i v)).circle := by
  show (prunePhase i _).1.circle = _
  rw [prunePhase_circle, ebHitPhase_circle, resolvePhase_circle, shipHitPhase_circle]
  show (integratePhase i _).circle = _
  rw [integratePhase_circle, spawnPhase_circle, firePhase_circle]

/-- C1: in every `Playing` frame, after the movement-and-clamp step (and
hence also at the end of the frame, since no later phase moves the ship)
the ship center satisfies `BALL_RADIUS ≤ x ≤ screen_width - BALL_RADIUS`
and `BALL_RADIUS ≤ y ≤ screen_height - BALL_RADIUS`, for every
combination of held directional inputs and every `delta_time`, on any
screen at least `2 * BALL_RADIUS` wide and tall. -/
theorem C1_position_clamp (i : FrameInput) (v : GameVars)
    (hW : 2 * BALL_RADIUS ≤ i.screen_width)
    (hH : 2 * BALL_RADIUS ≤ i.screen_height) :
    (BALL_RADIUS ≤ (movePhase i (pausePhase i v)).circle.x ∧
      (movePhase i (pausePhase i v)).circle.x ≤ i.screen_width - BALL_RADIUS ∧
      BALL_RADIUS ≤ (movePhase i (pausePhase i v)).circle.y ∧
      (movePhase i (pausePhase i v)).circle.y ≤ i.screen_height - BALL_RADIUS) ∧
    (BALL_RADIUS ≤ (playingFrame i v).vars.circle.x ∧
      (playingFrame i v).vars.circle.x ≤ i.screen_width - BALL_RADIUS ∧
      BALL_RADIUS ≤ (playingFrame i v).vars.circle.y ∧
      (playingFrame i v).vars.circle.y ≤ i.screen_height - BALL_RADIUS) := by
  have hW' : BALL_RADIUS ≤ i.screen_width - BALL_RADIUS := by linarith
  have hH' : BALL_RADIUS ≤ i.screen_height - BALL_RADIUS := by linarith
  obtain ⟨x0, hx0⟩ : ∃ x0, (movePhase i (pausePhase i v)).circle.x =
      max (min x0 (i.screen_width - BALL_RADIUS)) BALL_RADIUS := ⟨_, rfl⟩
  obtain ⟨y0, hy0⟩ : ∃ y0, (movePhase i (pausePhase i v)).circle.y =
      max (min y0 (i.screen_height - BALL_RADIUS)) BALL_RADIUS := ⟨_, rfl⟩
  have hx := clamp_mem x0 BALL_RADIUS (i.screen_width - BALL_RADIUS) hW'
  have hy := clamp_mem y0 BALL_RADIUS (i.screen_height - BALL_RADIUS) hH'
  rw [playingFrame_circle, hx0, hy0]
  exact ⟨⟨hx.1, hx.2, hy.1, hy.2⟩, hx.1, hx.2, hy.1, hy.2⟩

/-- Distance from `c` to the interval `[a - h, a + h]`, written the way
the source computes it, equals the distance from `c` to its clamp into
that interval. -/
theorem clamp_dist (a c h : ℚ) (hh : 0 ≤ h) :
    max (abs (a - c)) h - h = abs (c - clampQ c (a - h) (a + h)) := by
  unfold clampQ
  rcases le_total c (a - h) with hc | hc
  · rw [min_eq_left (by linarith : c ≤ a + h), max_eq_left hc,
      abs_of_nonneg (by linarith : (0 : ℚ) ≤ a - c),
      abs_of_nonpos (by linarith : c - (a - h) ≤ 0),
      max_eq_left (by linarith : h ≤ a - c)]
    ring
  · rcases le_total c (a + h) with hc2 | hc2
    · rw [min_eq_left hc2, max_eq_right hc,
        max_eq_right (abs_le.mpr ⟨by linarith, by linarith⟩)]
      simp
    · rw [min_eq_right hc2, max_eq_right (by linarith : a - h ≤ a + h),
        abs_of_nonpos (by linarith : a - c ≤ 0),
        abs_of_nonneg (by linarith : (0 : ℚ) ≤ c - (a + h)),
        max_eq_left (by linarith : h ≤ -(a - c))]
      ring

/-- The source's `collides_with_circle` agrees with the spec's
clamped-nearest-point formulation whenever the square's side is
nonnegative. -/
theorem collides_with_circle_iff (sq circle : Shape) (hsz : 0 ≤ sq.size) :
    (sq.collides_with_circle circle = true ↔ specCircleSquareTest circle sq) := by
  unfold Shape.collides_with_circle specCircleSquareTest
  have h2 : (0 : ℚ) ≤ sq.size / 2 := by linarith
  simp only [decide_eq_true_eq]
  rw [clamp_dist sq.x circle.x (sq.size / 2) h2,
    clamp_dist sq.y circle.y (sq.size / 2) h2, abs_mul_abs_self, abs_mul_abs_self]
  constructor <;> intro h <;> nlinarith [h]

theorem resolvePhase_state (v : GameVars) :
    (resolvePhase v).game_state = v.game_state := rfl

theorem ebHitPhase_state_gameover (v : GameVars)
    (h : v.game_state = GameState.GameOver) :
    (ebHitPhase v).1.game_state = GameState.GameOver := by
  unfold ebHitPhase
  dsimp only
  split
  · rfl
  · exact h

theorem prunePhase_state (i : FrameInput) (v : GameVars) :
    (prunePhase i v).1.game_state = v.game_state := rfl

/-- C2: the ship-versus-enemy test (enemy as square, ship as circle)
returns true iff the squared distance from the circle's center to the
clamped nearest point of the square is at most `(circle.size / 2) ^ 2`;
a ship and an enemy square with identical centers collide (concretely,
both at (100, 100), enemy size 40); and whenever some enemy passes this
test in a `Playing` frame, the frame ends in the `GameOver` state. -/
theorem C2_ship_enemy_collision :
    (∀ sq circle : Shape, 0 ≤ sq.size →
        (sq.collides_with_circle circle = true ↔ specCircleSquareTest circle sq)) ∧
    eSq40.collides_with_circle ship0 = true ∧
    (∀ (i : FrameInput) (v : GameVars),
        ((preCollisionVars i v).enemies.any fun e =>
            e.shape.collides_with_circle (preCollisionVars i v).circle) = true →
        (playingFrame i v).vars.game_state = GameState.GameOver) := by
  refine ⟨fun sq c h => collides_with_circle_iff sq c h, ?_, ?_⟩
  · norm_num [Shape.collides_with_circle, eSq40, ship0]
  · intro i v h
    show (prunePhase i _).1.game_state = _
    rw [prunePhase_state]
    apply ebHitPhase_state_gameover
    rw [resolvePhase_state]
    unfold shipHitPhase
    simp only [h, if_true]

/-- Witness for C2: the scenario pair (ship circle and enemy square both
centered at (100, 100), enemy size 40) satisfies the spec formulation of
the test, and a concrete Playing frame containing that enemy ends in the
GameOver state. -/
theorem C2_ship_enemy_collision_witness :
    specCircleSquareTest ship0 eSq40 ∧
    (playingFrame input0 varsHit).vars.game_state = GameState.GameOver := by
  refine ⟨(C2_ship_enemy_collision.1 eSq40 ship0 (by norm_num [eSq40])).mp
      C2_ship_enemy_collision.2.1,
    C2_ship_enemy_collision.2.2 input0 varsHit ?_⟩
  norm_num [preCollisionVars, integratePhase, spawnPhase, firePhase, movePhase,
    pausePhase, maxEnemies, input0, varsHit, vars0, enemy40, eSq40, ship0,
    Shape.collides_with_circle, MOVEMENT_SPEED, BALL_RADIUS,
    MAX_BULLETS_PER_SECOND, base_width, base_enemies, GOLD]

/-- Witness for C1 at a concrete input and state. -/
theorem C1_position_clamp_witness :
    (BALL_RADIUS ≤ (movePhase input0 (pausePhase input0 vars0)).circle.x ∧
      (movePhase input0 (pausePhase input0 vars0)).circle.x ≤
        input0.screen_width - BALL_RADIUS ∧
      BALL_RADIUS ≤ (movePhase input0 (pausePhase input0 vars0)).circle.y ∧
      (movePhase input0 (pausePhase input0 vars0)).circle.y ≤
        input0.screen_height - BALL_RADIUS) ∧
    (BALL_RADIUS ≤ (playingFrame input0 vars0).vars.circle.x ∧
      (playingFrame input0 vars0).vars.circle.x ≤
        input0.screen_width - BALL_RADIUS ∧
      BALL_RADIUS ≤ (playingFrame input0 vars0).vars.circle.y ∧
      (playingFrame input0 vars0).vars.circle.y ≤
        input0.screen_height - BALL_RADIUS) :=
  C1_position_clamp input0 vars0
    (by norm_num [BALL_RADIUS, input0])
    (by norm_num [BALL_RADIUS, input0])

end BG

namespace BG

/-- C8: in every Playing frame a new player bullet is created iff
`current_time - last_bullet_time > 1 / MAX_BULLETS_PER_SECOND`
(no fire key is consulted at all); when it fires, the bullet appears at
the ship's position offset 24 upward with twice the ship's speed, and
`last_bullet_time` is set to the current time; otherwise nothing
changes. -/
theorem C8_fire_rate (i : FrameInput) (v : GameVars) :
    ((i.current_time - v.last_bullet_time > 1 / MAX_BULLETS_PER_SECOND) →
      firePhase i v =
        { v with last_bullet_time := i.current_time,
                 bullets := v.bullets ++
                   [{ size := 32, speed := v.circle.speed * 2, x := v.circle.x,
                      y := v.circle.y - 24, w := 32, h := 32, color := GOLD,
                      collided := false }] }) ∧
    (¬(i.current_time - v.last_bullet_time > 1 / MAX_BULLETS_PER_SECOND) →
      firePhase i v = v) ∧
    ((firePhase i v).bullets.length = v.bullets.length + 1 ↔
      i.current_time - v.last_bullet_time > 1 / MAX_BULLETS_PER_SECOND) := by
  unfold firePhase
  by_cases h : i.current_time - v.last_bullet_time > 1 / MAX_BULLETS_PER_SECOND
  · rw [if_pos h]
    exact ⟨fun _ => rfl, fun hn => absurd h hn, ⟨fun _ => h, fun _ => by simp⟩⟩
  · rw [if_neg h]
    exact ⟨fun hc => absurd hc h, fun _ => rfl,
      ⟨fun hlen => absurd hlen (by omega), fun hc => absurd hc h⟩⟩

/-- Witness for C8: with one second elapsed since the last shot, the
frame fires exactly one bullet. -/
theorem C8_fire_rate_witness :
    (firePhase inputFire vars0).bullets.length = vars0.bullets.length + 1 :=
  (C8_fire_rate inputFire vars0).2.2.mpr
    (by norm_num [inputFire, input0, vars0, MAX_BULLETS_PER_SECOND])

/-- Functional characterisation of the enemy-bullet-versus-ship loop:
it reports whether any bullet overlaps the ship, and emits one save of
the current score per overlapping bullet when the score ties the high
score. -/
theorem ebHitLoop_spec (c : Shape) (sc hs : Nat) (bs : List EnemyBullet) :
    ebHitLoop c sc hs bs =
      ((bs.any fun b => b.shape.collides_with c),
        if sc = hs then
          (bs.filter fun b => b.shape.collides_with c).map fun _ => sc
        else []) := by
  induction bs with
  | nil =>
    unfold ebHitLoop
    simp only [List.any_nil, List.filter_nil, List.map_nil]
    split <;> rfl
  | cons b bs ih =>
    unfold ebHitLoop
    rw [ih]
    by_cases hcol : b.shape.collides_with c = true
    · rw [if_pos hcol]
      by_cases hsc : sc = hs

      · simp [hcol, hsc, List.filter_cons, List.any_cons]
      · simp [hcol, hsc, List.any_cons]
    · simp only [Bool.not_eq_true] at hcol
      rw [if_neg (by simp [hcol])]
      simp [hcol, List.filter_cons, List.any_cons]

/-- First component of the enemy-bullet-versus-ship phase. -/
theorem ebHitPhase_fst (v : GameVars) :
    (ebHitPhase v).1 =
      if v.enemy_bullets.any (fun b => b.shape.collides_with v.circle) then
        { v with game_state := GameState.GameOver }
      else v := by
  unfold ebHitPhase
  rw [ebHitLoop_spec]

/-- Save events of the enemy-bullet-versus-ship phase. -/
theorem ebHitPhase_snd (v : GameVars) :
    (ebHitPhase v).2 =
      if v.score = v.high_score then
        (v.enemy_bullets.filter fun b => b.shape.collides_with v.circle).map
          fun _ => v.score
      else [] := by
  unfold ebHitPhase
  rw [ebHitLoop_spec]

/-- C7: whenever a life ends — the ship hit by an enemy (step 1) or by
an enemy bullet (step 4) — the state becomes GameOver, and the high
score is persisted iff `score = high_score` at that moment; every
persisted value is the current score.  When nothing hits, the phase
changes nothing and persists nothing. -/
theorem C7_persist_on_tie (v : GameVars) :
    (((v.enemies.any fun e => e.shape.collides_with_circle v.circle) = true →
        (shipHitPhase v).1.game_state = GameState.GameOver ∧
        ((shipHitPhase v).2 ≠ [] ↔ v.score = v.high_score) ∧
        ∀ s ∈ (shipHitPhase v).2, s = v.score) ∧
      ((v.enemies.any fun e => e.shape.collides_with_circle v.circle) = false →
        shipHitPhase v = (v, []))) ∧
    (((v.enemy_bullets.any fun b => b.shape.collides_with v.circle) = true →
        (ebHitPhase v).1.game_state = GameState.GameOver ∧
        ((ebHitPhase v).2 ≠ [] ↔ v.score = v.high_score) ∧
        ∀ s ∈ (ebHitPhase v).2, s = v.score) ∧
      ((v.enemy_bullets.any fun b => b.shape.collides_with v.circle) = false →
        ebHitPhase v = (v, []))) := by
  refine ⟨⟨?_, ?_⟩, ?_, ?_⟩
  · intro h
    unfold shipHitPhase
    rw [if_pos h]
    by_cases hsc : v.score = v.high_score
    · rw [if_pos hsc]
      refine ⟨rfl, ⟨fun _ => hsc, fun _ => by simp⟩, ?_⟩
      intro s hs1
      rw [List.mem_singleton] at hs1
      exact hs1
    · rw [if_neg hsc]
      exact ⟨rfl, ⟨fun hne => absurd rfl hne, fun htie => absurd htie hsc⟩,
        fun s hs1 => absurd hs1 (List.not_mem_nil s)⟩
  · intro h
    unfold shipHitPhase
    rw [if_neg (by simp [h])]
  · intro h
    have hne : (v.enemy_bullets.filter fun b => b.shape.collides_with v.circle) ≠ [] := by
      rw [List.any_eq_true] at h
      obtain ⟨b, hb, hbc⟩ := h
      exact List.ne_nil_of_mem (List.mem_filter.mpr ⟨hb, hbc⟩)
    refine ⟨?_, ?_, ?_⟩
    · rw [ebHitPhase_fst, if_pos h]
    · rw [ebHitPhase_snd]
      by_cases hsc : v.score = v.high_score
      · rw [if_pos hsc]
        refine ⟨fun _ => hsc, fun _ => ?_⟩
        intro hmapnil
        exact hne (List.map_eq_nil_iff.mp hmapnil)
      · rw [if_neg hsc]
        exact ⟨fun hne2 => absurd rfl hne2, fun htie => absurd htie hsc⟩
    · rw [ebHitPhase_snd]
      intro s hs1
      by_cases hsc : v.score = v.high_score
      · rw [if_pos hsc] at hs1
        obtain ⟨b, _, hb2⟩ := List.mem_map.mp hs1
        exact hb2.symm
      · rw [if_neg hsc] at hs1
        exact absurd hs1 (List.not_mem_nil s)
  · intro h
    have hfilter : (v.enemy_bullets.filter fun b => b.shape.collides_with v.circle) = [] := by
      rw [List.filter_eq_nil_iff]
      intro b hb
      rw [List.any_eq_false] at h
      simp [h b hb]
    have h1 : (ebHitPhase v).1 = v := by
      rw [ebHitPhase_fst, if_neg (by simp [h])]
    have h2 : (ebHitPhase v).2 = [] := by
      rw [ebHitPhase_snd, hfilter]
      split <;> rfl
    exact Prod.ext h1 h2

/-- Witness for C7: scenario 4 — score 0, prior high score 0, ship hit
by the enemy: the state becomes GameOver and 0 is (re-)persisted. -/
theorem C7_persist_on_tie_witness :
    (shipHitPhase varsHit).1.game_state = GameState.GameOver ∧
    (shipHitPhase varsHit).2 ≠ [] ∧
    ∀ s ∈ (shipHitPhase varsHit).2, s = 0 := by
  have h := (C7_persist_on_tie varsHit).1.1
    (by norm_num [varsHit, vars0, enemy40, eSq40, ship0, Shape.collides_with_circle])
  exact ⟨h.1, h.2.1.mpr (by norm_num [varsHit, vars0]), h.2.2⟩

end BG

namespace BG

/-- C6: in a Playing frame exactly one enemy is spawned iff the enemy
count is below `maxEnemies = floor(30 * scale)` and the uniform roll is
at least 95; the spawned enemy carries the drawn size (scaled by
`screen_width / 750`), drawn speed, drawn x, `y = -size`, and the next
monotonically increasing identifier, which is fresh (never reused within
a life); otherwise the state is untouched. -/
theorem C6_spawner (i : FrameInput) (v : GameVars)
    (hroll : i.spawn_roll ≤ 99)
    (hsz1 : 16 ≤ i.size_draw) (hsz2 : i.size_draw ≤ 64)
    (hsp1 : 50 ≤ i.speed_draw) (hsp2 : i.speed_draw ≤ 150)
    (hx1 : i.size_draw * (i.screen_width / base_width) / 2 ≤ i.x_draw)
    (hx2 : i.x_draw ≤ i.screen_width - i.size_draw * (i.screen_width / base_width) / 2)
    (hW : 0 ≤ i.screen_width)
    (hids : ∀ e ∈ v.enemies, e.id < v.next_enemy_id) :
    ((spawnPhase i v).enemies.length = v.enemies.length + 1 ↔
      (v.enemies.length < maxEnemies i.screen_width ∧ 95 ≤ i.spawn_roll)) ∧
    ((v.enemies.length < maxEnemies i.screen_width ∧ 95 ≤ i.spawn_roll) →
      spawnPhase i v = { v with
        enemies := v.enemies ++
          [{ id := v.next_enemy_id, bullet_count := 0,
             shape := { size := i.size_draw * (i.screen_width / base_width),
                        speed := i.speed_draw, x := i.x_draw,
                        y := -(i.size_draw * (i.screen_width / base_width)),
                        w := i.size_draw * (i.screen_width / base_width),
                        h := i.size_draw * (i.screen_width / base_width),
                        color := i.color_draw, collided := false } }],
        next_enemy_id := v.next_enemy_id + 1 } ∧
      16 * (i.screen_width / base_width) ≤
        i.size_draw * (i.screen_width / base_width) ∧
      i.size_draw * (i.screen_width / base_width) ≤
        64 * (i.screen_width / base_width) ∧
      50 ≤ i.speed_draw ∧ i.speed_draw ≤ 150 ∧
      i.size_draw * (i.screen_width / base_width) / 2 ≤ i.x_draw ∧
      i.x_draw ≤ i.screen_width - i.size_draw * (i.screen_width / base_width) / 2 ∧
      (∀ e ∈ v.enemies, e.id ≠ v.next_enemy_id) ∧
      (∀ e ∈ (spawnPhase i v).enemies, e.id < (spawnPhase i v).next_enemy_id)) ∧
    (¬(v.enemies.length < maxEnemies i.screen_width ∧ 95 ≤ i.spawn_roll) →
      spawnPhase i v = v) := by
  have hscale : (0 : ℚ) ≤ i.screen_width / base_width := by
    unfold base_width
    positivity
  by_cases hcond : v.enemies.length < maxEnemies i.screen_width ∧ 95 ≤ i.spawn_roll
  · have heq : spawnPhase i v = { v with
        enemies := v.enemies ++
          [{ id := v.next_enemy_id, bullet_count := 0,
             shape := { size := i.size_draw * (i.screen_width / base_width),
                        speed := i.speed_draw, x := i.x_draw,
                        y := -(i.size_draw * (i.screen_width / base_width)),
                        w := i.size_draw * (i.screen_width / base_width),
                        h := i.size_draw * (i.screen_width / base_width),
                        color := i.color_draw, collided := false } }],
        next_enemy_id := v.next_enemy_id + 1 } := by
      unfold spawnPhase
      rw [if_pos hcond]
    refine ⟨?_, fun _ => ⟨heq, ?_, ?_, hsp1, hsp2, hx1, hx2, ?_, ?_⟩,
      fun hn => absurd hcond hn⟩
    · rw [heq]
      simp [hcond]
    · exact mul_le_mul_of_nonneg_right hsz1 hscale
    · exact mul_le_mul_of_nonneg_right hsz2 hscale
    · exact fun e he => Nat.ne_of_lt (hids e he)
    · rw [heq]
      intro e he
      rcases List.mem_append.mp he with h1 | h1
      · exact Nat.lt_succ_of_lt (hids e h1)
      · rw [List.mem_singleton] at h1
        subst h1
        exact Nat.lt_succ_self _
  · have heq : spawnPhase i v = v := by
      unfold spawnPhase
      rw [if_neg hcond]
    refine ⟨?_, fun hc => absurd hc hcond, fun _ => heq⟩
    rw [heq]
    simp [hcond]

/-- Witness for C6: a concrete frame whose roll is 97 and whose enemy
list is empty spawns exactly one enemy. -/
theorem C6_spawner_witness :
    (spawnPhase { input0 with spawn_roll := 97 } vars0).enemies.length =
      vars0.enemies.length + 1 :=
  (C6_spawner { input0 with spawn_roll := 97 } vars0
      (by norm_num [input0]) (by norm_num [input0]) (by norm_num [input0])
      (by norm_num [input0]) (by norm_num [input0])
      (by norm_num [input0, base_width]) (by norm_num [input0, base_width])
      (by norm_num [input0]) (by simp [vars0])).1.mpr
    (by constructor
        · norm_num [vars0, input0, maxEnemies, base_enemies, base_width]
        · norm_num [input0])

/-- C10 as stated fails: resuming from Paused is an entry into the
Playing state, and it performs no reset — the enemy from the interrupted
life is still present on the first resumed frame. -/
theorem C10_counterexample :
    (gameFrame inputResume varsPaused).vars.game_state = GameState.Playing ∧
    (gameFrame inputResume varsPaused).vars.enemies = [enemy40] := by
  norm_num [gameFrame, pausedFrame, varsPaused, inputResume, input0, vars0]

/-- C10 amended: every entry into Playing from the MainMenu (Play
clicked) performs the full reset — entity collections and explosions
cleared, score 0, beaten flag false, ship at the fixed start position —
so no enemy or bullet from a previous life is present at a new life's
first frame, whatever came before; the Paused → Playing resume is the
one entry into Playing that does not reset. -/
theorem C10_amended (i : FrameInput) (v : GameVars)
    (hstate : v.game_state = GameState.MainMenu)
    (hplay : i.play_clicked = true) :
    (gameFrame i v).vars.game_state = GameState.Playing ∧
    (gameFrame i v).vars.enemies = [] ∧
    (gameFrame i v).vars.bullets = [] ∧
    (gameFrame i v).vars.enemy_bullets = [] ∧
    (gameFrame i v).vars.explosions = [] ∧
    (gameFrame i v).vars.score = 0 ∧
    (gameFrame i v).vars.high_score_beaten = false ∧
    (gameFrame i v).vars.circle.x = i.screen_width / 2 ∧
    (gameFrame i v).vars.circle.y = i.screen_height - v.circle.size := by
  unfold gameFrame
  simp only [hstate]
  unfold mainMenuFrame
  rw [if_pos hplay]
  norm_num

/-- Witness for the amended C10: clicking Play from a menu state full of
stale entities yields a fully reset Playing state. -/
theorem C10_amended_witness :
    (gameFrame inputPlay varsMenu).vars.game_state = GameState.Playing ∧
    (gameFrame inputPlay varsMenu).vars.enemies = [] ∧
    (gameFrame inputPlay varsMenu).vars.bullets = [] ∧
    (gameFrame inputPlay varsMenu).vars.enemy_bullets = [] ∧
    (gameFrame inputPlay varsMenu).vars.explosions = [] ∧
    (gameFrame inputPlay varsMenu).vars.score = 0 ∧
    (gameFrame inputPlay varsMenu).vars.high_score_beaten = false ∧
    (gameFrame inputPlay varsMenu).vars.circle.x = inputPlay.screen_width / 2 ∧
    (gameFrame inputPlay varsMenu).vars.circle.y =
      inputPlay.screen_height - varsMenu.circle.size :=
  C10_amended inputPlay varsMenu (by norm_num [varsMenu, vars0])
    (by norm_num [inputPlay, input0])

end BG

namespace BG

/-- Marking a shape collided does not change its collision geometry. -/
theorem collides_with_mark_left (b s : Shape) :
    Shape.collides_with { b with collided := true } s = b.collides_with s := rfl

/-- Conditional marking does not change the overlap test. -/
theorem collides_markIfHit (e b s : Shape) :
    Shape.collides_with
      (if b.collides_with e then { b with collided := true } else b) s =
      b.collides_with s := by
  split <;> rfl

/-- Conditional marking does not change the explosion pushed for a
bullet. -/
theorem mkExpl_markIfHit (s e b : Shape) :
    mkExpl s (if b.collides_with e then { b with collided := true } else b) =
      mkExpl s b := by
  split <;> rfl

/-- Functional characterisation of the inner bullet loop: bullets are
marked exactly on overlap, the score gains one rounded enemy size per
overlapping bullet, `hit` reports any overlap, and one explosion per
overlapping bullet is pushed at that bullet's position. -/
theorem innerBullets_spec (es : Shape) (sc hs : Nat) (bt : Bool) (bs : List Shape) :
    (innerBullets es sc hs bt bs).bullets =
      (bs.map fun b =>
        if b.collides_with es then { b with collided := true } else b) ∧
    (innerBullets es sc hs bt bs).score =
      sc + (bs.countP fun b => b.collides_with es) * roundNat es.size ∧
    ((innerBullets es sc hs bt bs).hit = bs.any fun b => b.collides_with es) ∧
    (innerBullets es sc hs bt bs).newExpl =
      (bs.filter fun b => b.collides_with es).map (mkExpl es) := by
  induction bs generalizing sc hs bt with
  | nil => simp [innerBullets]
  | cons b bs ih =>
    unfold innerBullets
    by_cases hcol : b.collides_with es = true
    · rw [if_pos hcol]
      dsimp only
      obtain ⟨ih1, ih2, ih3, ih4⟩ := ih (sc + roundNat es.size)
        (if sc + roundNat es.size > hs then sc + roundNat es.size else hs)
        (if sc + roundNat es.size > hs then true else bt)
      refine ⟨?_, ?_, ?_, ?_⟩
      · rw [ih1]
        simp [hcol]
      · rw [ih2, List.countP_cons]
        simp [hcol]
        ring
      · simp [hcol]
      · rw [ih4]
        simp [hcol, List.filter_cons]
    · rw [if_neg hcol]
      dsimp only
      obtain ⟨ih1, ih2, ih3, ih4⟩ := ih sc hs bt
      have hcol' : b.collides_with es = false := by
        simpa using hcol
      refine ⟨?_, ?_, ?_, ?_⟩
      · rw [ih1]
        simp [hcol']
      · rw [ih2, List.countP_cons]
        simp [hcol']
      · rw [ih3]
        simp [hcol']
      · rw [ih4]
        simp [hcol', List.filter_cons]

end BG

namespace BG

/-- Markings performed for one enemy do not change which bullets overlap
any given shape. -/
theorem any_marked (e : Shape) (bs : List Shape) (s : Shape) :
    ((bs.map fun b =>
        if b.collides_with e then { b with collided := true } else b).any
      fun b => b.collides_with s) = bs.any fun b => b.collides_with s := by
  rw [List.any_map]
  congr 1
  funext b
  simp only [Function.comp_apply]
  exact collides_markIfHit e b s

/-- Markings performed for one enemy do not change overlap counts. -/
theorem countP_marked (e : Shape) (bs : List Shape) (s : Shape) :
    ((bs.map fun b =>
        if b.collides_with e then { b with collided := true } else b).countP
      fun b => b.collides_with s) = bs.countP fun b => b.collides_with s := by
  rw [List.countP_map]
  congr 1
  funext b
  simp only [Function.comp_apply]
  exact collides_markIfHit e b s

/-- Markings performed for one enemy do not change the pair score. -/
theorem pairScore_marked (e : Shape) (es : List Enemy) (bs : List Shape) :
    pairScore es (bs.map fun b =>
      if b.collides_with e then { b with collided := true } else b) =
      pairScore es bs := by
  unfold pairScore
  congr 1
  congr 1
  funext e2
  rw [countP_marked]

/-- Markings performed for one enemy do not change later explosions. -/
theorem expl_marked (e es2 : Shape) (bs : List Shape) :
    ((bs.map fun b =>
        if b.collides_with e then { b with collided := true } else b).filter
      fun b => b.collides_with es2).map (mkExpl es2) =
      (bs.filter fun b => b.collides_with es2).map (mkExpl es2) := by
  rw [List.filter_map, List.map_map]
  congr 1
  · funext b
    simp only [Function.comp_apply]
    exact mkExpl_markIfHit es2 e b
  · congr 1
    funext b
    simp only [Function.comp_apply]
    exact collides_markIfHit e b es2

/-- Markings performed for one enemy do not change the per-enemy
resolver step. -/
theorem resolveEnemyStep_marked (c e : Shape) (bs : List Shape) (e2 : Enemy) :
    resolveEnemyStep c (bs.map fun b =>
      if b.collides_with e then { b with collided := true } else b) e2 =
      resolveEnemyStep c bs e2 := by
  unfold resolveEnemyStep
  rw [any_marked]

/-- The fire condition ignores the collided flag. -/
theorem fireCond_markIf (c : Shape) (e : Enemy) (cond : Bool) :
    fireCond c (if cond then
      { e with shape := { e.shape with collided := true } } else e) =
      fireCond c e := by
  cases cond <;> rfl

/-- The fired bullet ignores the collided flag. -/
theorem mkEnemyBullet_markIf (e : Enemy) (cond : Bool) :
    mkEnemyBullet (if cond then
      { e with shape := { e.shape with collided := true } } else e) =
      mkEnemyBullet e := by
  cases cond <;> rfl

theorem pairScore_cons (e : Enemy) (es : List Enemy) (bs : List Shape) :
    pairScore (e :: es) bs =
      (bs.countP fun b => b.collides_with e.shape) * roundNat e.shape.size +
        pairScore es bs := by
  unfold pairScore
  simp

/-- Functional characterisation of the resolver's outer loop: each enemy
is transformed by `resolveEnemyStep`, each bullet is marked iff some
enemy overlaps it, the score grows by `pairScore`, one explosion appears
per overlapping pair (at the bullet's position), and one enemy bullet is
fired per enemy passing the fire check. -/
theorem resolveEnemies_spec (c : Shape) (sc hs : Nat) (bt : Bool)
    (es : List Enemy) (bs : List Shape) :
    (resolveEnemies c sc hs bt es bs).enemies = es.map (resolveEnemyStep c bs) ∧
    (resolveEnemies c sc hs bt es bs).bullets =
      (bs.map fun b =>
        if es.any (fun e => b.collides_with e.shape) then
          { b with collided := true } else b) ∧
    (resolveEnemies c sc hs bt es bs).score = sc + pairScore es bs ∧
    (resolveEnemies c sc hs bt es bs).newExpl =
      es.flatMap (fun e =>
        (bs.filter fun b => b.collides_with e.shape).map (mkExpl e.shape)) ∧
    (resolveEnemies c sc hs bt es bs).newEnemyBullets =
      (es.filter fun e => fireCond c e).map mkEnemyBullet := by
  induction es generalizing sc hs bt bs with
  | nil => simp [resolveEnemies, pairScore]
  | cons e es ih =>
    unfold resolveEnemies
    dsimp only
    obtain ⟨j1, j2, j3, j4⟩ :=
      innerBullets_spec e.shape sc hs bt bs
    rw [j1, j2, j3, j4]
    obtain ⟨i1, i2, i3, i4, i5⟩ := ih
      (sc + (bs.countP fun b => b.collides_with e.shape) * roundNat e.shape.size)
      (innerBullets e.shape sc hs bt bs).high_score
      (innerBullets e.shape sc hs bt bs).beaten
      (bs.map fun b =>
        if b.collides_with e.shape then { b with collided := true } else b)
    rw [i1, i2, i3, i4, i5]
    refine ⟨?_, ?_, ?_, ?_, ?_⟩
    · rw [List.map_cons]
      have htail : List.map (resolveEnemyStep c (List.map (fun b =>
          if b.collides_with e.shape then { b with collided := true } else b)
            bs)) es = List.map (resolveEnemyStep c bs) es :=
        List.map_congr_left fun e2 _ => resolveEnemyStep_marked c e.shape bs e2
      rw [htail]
      rfl
    · rw [List.map_map]
      refine List.map_congr_left fun b _ => ?_
      simp only [Function.comp_apply]
      by_cases hcol : b.collides_with e.shape = true
      · simp only [hcol, if_true, List.any_cons, Bool.true_or,
          collides_with_mark_left]
        split <;> rfl
      · simp only [Bool.not_eq_true] at hcol
        simp [hcol, List.any_cons]
    · rw [pairScore_marked, pairScore_cons]
      exact Nat.add_assoc _ _ _
    · rw [List.flatMap_cons]
      have htail : (es.flatMap fun e2 =>
          ((List.map (fun b =>
            if b.collides_with e.shape then { b with collided := true } else b)
              bs).filter fun b => b.collides_with e2.shape).map
            (mkExpl e2.shape)) =
          es.flatMap fun e2 =>
            (bs.filter fun b => b.collides_with e2.shape).map (mkExpl e2.shape) :=
        List.flatMap_congr fun e2 _ => expl_marked e.shape e2.shape bs
      rw [htail]
    · rw [List.filter_cons, fireCond_markIf, mkEnemyBullet_markIf]
      by_cases hfc : fireCond c e = true
      · simp [hfc]
      · simp only [Bool.not_eq_true] at hfc
        simp [hfc]

end BG



namespace BG

/-- Merging one high-score update into an accumulated beaten flag. -/
theorem beaten_merge (b : Bool) (P Q R : Prop) [Decidable P] [Decidable Q]
    [Decidable R] (h : P ∨ Q ↔ R) :
    ((b || decide P) || decide Q) = (b || decide R) := by
  cases b
  · simp only [Bool.false_or]
    rw [← Bool.decide_or]
    exact decide_eq_decide.mpr h
  · simp

/-- High-score and beaten-flag behaviour of the inner bullet loop, under
the running invariant `score ≤ high_score`: afterwards the high score is
the maximum of the old high score and the new score, and the beaten flag
is set iff it was already set or the new score exceeds the old high
score. -/
theorem innerBullets_hs (es : Shape) (sc hs : Nat) (bt : Bool) (bs : List Shape)
    (h : sc ≤ hs) :
    (innerBullets es sc hs bt bs).high_score =
      max hs (sc + (bs.countP fun b => b.collides_with es) * roundNat es.size) ∧
    (innerBullets es sc hs bt bs).beaten =
      (bt || decide (hs < sc +
        (bs.countP fun b => b.collides_with es) * roundNat es.size)) ∧
    sc + (bs.countP fun b => b.collides_with es) * roundNat es.size ≤
      (innerBullets es sc hs bt bs).high_score := by
  induction bs generalizing sc hs bt with
  | nil =>
    refine ⟨?_, ?_, ?_⟩
    · show hs = max hs (sc + 0 * roundNat es.size)
      omega
    · show bt = (bt || decide (hs < sc + 0 * roundNat es.size))
      have hn : ¬(hs < sc) := by omega
      simp [hn]
    · show sc + 0 * roundNat es.size ≤ hs
      omega
  | cons b bs ih =>
    unfold innerBullets
    by_cases hcol : b.collides_with es = true
    · rw [if_pos hcol]
      dsimp only
      rw [List.countP_cons, if_pos hcol, Nat.add_mul, Nat.one_mul]
      by_cases hgt : sc + roundNat es.size > hs
      · rw [if_pos hgt, if_pos hgt]
        obtain ⟨g1, g2, g3⟩ :=
          ih (sc + roundNat es.size) (sc + roundNat es.size) true (le_refl _)
        refine ⟨?_, ?_, ?_⟩
        · rw [g1]
          omega
        · rw [g2]
          have h2 : hs < sc + ((bs.countP fun b => b.collides_with es) *
              roundNat es.size + roundNat es.size) := by omega
          simp [h2]
        · rw [g1]
          omega
      · rw [if_neg hgt, if_neg hgt]
        obtain ⟨g1, g2, g3⟩ :=
          ih (sc + roundNat es.size) hs bt (Nat.le_of_not_lt hgt)
        refine ⟨?_, ?_, ?_⟩
        · rw [g1]
          omega
        · rw [g2]
          congr 1
          exact decide_eq_decide.mpr (by omega)
        · rw [g1]
          omega
    · rw [if_neg hcol]
      dsimp only
      rw [List.countP_cons, if_neg hcol, Nat.add_zero]
      exact ih sc hs bt h

end BG

namespace BG

/-- High-score and beaten-flag behaviour of the whole resolver, under
the running invariant `score ≤ high_score`. -/
theorem resolveEnemies_hs (c : Shape) (sc hs : Nat) (bt : Bool)
    (es : List Enemy) (bs : List Shape) (h : sc ≤ hs) :
    (resolveEnemies c sc hs bt es bs).high_score =
      max hs (sc + pairScore es bs) ∧
    (resolveEnemies c sc hs bt es bs).beaten =
      (bt || decide (hs < sc + pairScore es bs)) ∧
    sc + pairScore es bs ≤ (resolveEnemies c sc hs bt es bs).high_score := by
  induction es generalizing sc hs bt bs with
  | nil =>
    have h0 : pairScore [] bs = 0 := rfl
    refine ⟨?_, ?_, ?_⟩
    · show hs = max hs (sc + pairScore [] bs)
      rw [h0]
      omega
    · show bt = (bt || decide (hs < sc + pairScore [] bs))
      rw [h0]
      have hn : ¬(hs < sc) := by omega
      simp [hn]
    · show sc + pairScore [] bs ≤ hs
      rw [h0]
      omega
  | cons e es ih =>
    unfold resolveEnemies
    dsimp only
    have hcnt := (innerBullets_spec e.shape sc hs bt bs).2.1
    have hbul := (innerBullets_spec e.shape sc hs bt bs).1
    obtain ⟨g1, g2, g3⟩ := innerBullets_hs e.shape sc hs bt bs h
    have hmono : (innerBullets e.shape sc hs bt bs).score ≤
        (innerBullets e.shape sc hs bt bs).high_score := by
      rw [hcnt]
      exact g3
    obtain ⟨k1, k2, k3⟩ := ih (innerBullets e.shape sc hs bt bs).score
      (innerBullets e.shape sc hs bt bs).high_score
      (innerBullets e.shape sc hs bt bs).beaten
      (innerBullets e.shape sc hs bt bs).bullets hmono
    refine ⟨?_, ?_, ?_⟩
    · rw [k1, g1, hcnt, hbul, pairScore_marked, pairScore_cons]
      omega
    · rw [k2, g2, g1, hcnt, hbul, pairScore_marked, pairScore_cons]
      exact beaten_merge bt _ _ _ (by omega)
    · refine le_trans ?_ k3
      rw [hcnt, hbul, pairScore_marked, pairScore_cons]
      omega

/-- The per-enemy resolver step on the shape: marked collided iff some
bullet overlaps (geometry untouched). -/
theorem resolveEnemyStep_shape (c : Shape) (bs : List Shape) (e : Enemy) :
    (resolveEnemyStep c bs e).shape =
      if bs.any (fun b => b.collides_with e.shape) then
        { e.shape with collided := true } else e.shape := by
  unfold resolveEnemyStep
  dsimp only
  by_cases hh : (bs.any fun b => b.collides_with e.shape) = true
  · simp only [hh, if_true]
    split <;> rfl
  · simp only [Bool.not_eq_true] at hh
    simp only [hh, Bool.false_eq_true, if_false]
    split <;> rfl

/-- The per-enemy resolver step keeps the identifier. -/
theorem resolveEnemyStep_id (c : Shape) (bs : List Shape) (e : Enemy) :
    (resolveEnemyStep c bs e).id = e.id := by
  unfold resolveEnemyStep
  dsimp only
  by_cases hh : (bs.any fun b => b.collides_with e.shape) = true
  · simp only [hh, if_true]
    split <;> rfl
  · simp only [Bool.not_eq_true] at hh
    simp only [hh, Bool.false_eq_true, if_false]
    split <;> rfl

/-- The per-enemy resolver step's bullet count: incremented exactly when
the fire check passes. -/
theorem resolveEnemyStep_count (c : Shape) (bs : List Shape) (e : Enemy) :
    (resolveEnemyStep c bs e).bullet_count =
      e.bullet_count + (if fireCond c e then 1 else 0) := by
  unfold resolveEnemyStep
  dsimp only
  have hfc : fireCond c { e with shape := { e.shape with collided := true } } =
      fireCond c e := rfl
  by_cases hh : (bs.any fun b => b.collides_with e.shape) = true
  · simp only [hh, if_true, hfc]
    by_cases hf : fireCond c e = true
    · rw [if_pos hf, if_pos hf]
    · rw [if_neg hf, if_neg hf]
      rfl
  · simp only [Bool.not_eq_true] at hh
    simp only [hh, Bool.false_eq_true, if_false]
    by_cases hf : fireCond c e = true
    · rw [if_pos hf, if_pos hf]
    · rw [if_neg hf, if_neg hf]
      rfl

end BG

namespace BG

theorem resolvePhase_enemies (v : GameVars) :
    (resolvePhase v).enemies = (resolveEnemies v.circle v.score v.high_score
      v.high_score_beaten v.enemies v.bullets).enemies := rfl

theorem resolvePhase_bullets (v : GameVars) :
    (resolvePhase v).bullets = (resolveEnemies v.circle v.score v.high_score
      v.high_score_beaten v.enemies v.bullets).bullets := rfl

theorem resolvePhase_score (v : GameVars) :
    (resolvePhase v).score = (resolveEnemies v.circle v.score v.high_score
      v.high_score_beaten v.enemies v.bullets).score := rfl

theorem resolvePhase_high_score (v : GameVars) :
    (resolvePhase v).high_score = (resolveEnemies v.circle v.score v.high_score
      v.high_score_beaten v.enemies v.bullets).high_score := rfl

theorem resolvePhase_beaten (v : GameVars) :
    (resolvePhase v).high_score_beaten = (resolveEnemies v.circle v.score
      v.high_score v.high_score_beaten v.enemies v.bullets).beaten := rfl

theorem resolvePhase_explosions (v : GameVars) :
    (resolvePhase v).explosions = v.explosions ++ (resolveEnemies v.circle
      v.score v.high_score v.high_score_beaten v.enemies v.bullets).newExpl := rfl

theorem resolvePhase_enemy_bullets (v : GameVars) :
    (resolvePhase v).enemy_bullets = v.enemy_bullets ++ (resolveEnemies v.circle
      v.score v.high_score v.high_score_beaten v.enemies v.bullets).newEnemyBullets := rfl

/-- The prune pass leaves no collided enemy and no collided player
bullet. -/
theorem prunePhase_no_collided (i : FrameInput) (w : GameVars) :
    (∀ e ∈ (prunePhase i w).1.enemies, e.shape.collided = false) ∧
    (∀ b ∈ (prunePhase i w).1.bullets, b.collided = false) := by
  constructor
  · intro e he
    have he2 : e ∈ ((pruneEB i.screen_height w.enemy_bullets w.enemies).2.1.filter
        fun e => decide (e.shape.y < i.screen_height + e.shape.size)).filter
        fun e => !e.shape.collided := he
    have h2 := (List.mem_filter.mp he2).2
    simpa using h2
  · intro b hb
    have hb2 : b ∈ (w.bullets.filter
        fun b => decide (b.y > 0 - b.size / 2)).filter fun b => !b.collided := hb
    have h2 := (List.mem_filter.mp hb2).2
    simpa using h2

/-- C3: for every enemy and player-bullet pair whose bounding rectangles
overlap at the resolution pass of a Playing frame: both end the pass
marked collided; the pass's score is the old score plus one rounded
enemy size per overlapping pair (an overlapping enemy of size 40 adds
40); the high score and beaten flag are updated exactly when the new
score exceeds the old high score; an explosion with the enemy's
parameters sits in the explosion list at the bullet's position; and the
same frame's prune pass keeps no collided enemy or bullet. -/
theorem C3_bullet_enemy_resolution (v : GameVars) (i : FrameInput)
    (hinv : v.score ≤ v.high_score) :
    (∀ iE jB (hiE : iE < v.enemies.length) (hjB : jB < v.bullets.length),
      (v.bullets[jB]).collides_with (v.enemies[iE]).shape = true →
      (∀ e2, (resolvePhase v).enemies[iE]? = some e2 →
        e2.shape.collided = true) ∧
      (∀ b2, (resolvePhase v).bullets[jB]? = some b2 → b2.collided = true) ∧
      mkExpl (v.enemies[iE]).shape (v.bullets[jB]) ∈
        (resolvePhase v).explosions) ∧
    (resolvePhase v).score = v.score + pairScore v.enemies v.bullets ∧
    (resolvePhase v).high_score = max v.high_score (resolvePhase v).score ∧
    (resolvePhase v).high_score_beaten =
      (v.high_score_beaten || decide (v.high_score < (resolvePhase v).score)) ∧
    (∀ e ∈ (prunePhase i (ebHitPhase (resolvePhase v)).1).1.enemies,
      e.shape.collided = false) ∧
    (∀ b ∈ (prunePhase i (ebHitPhase (resolvePhase v)).1).1.bullets,
      b.collided = false) := by
  obtain ⟨s1, s2, s3, s4, s5⟩ := resolveEnemies_spec v.circle v.score
    v.high_score v.high_score_beaten v.enemies v.bullets
  obtain ⟨h1, h2, h3⟩ := resolveEnemies_hs v.circle v.score v.high_score
    v.high_score_beaten v.enemies v.bullets hinv
  refine ⟨?_, ?_, ?_, ?_, (prunePhase_no_collided i _).1,
    (prunePhase_no_collided i _).2⟩
  · intro iE jB hiE hjB hover
    have hbmem : v.bullets[jB] ∈ v.bullets := List.getElem_mem hjB
    have hemem : v.enemies[iE] ∈ v.enemies := List.getElem_mem hiE
    have hanyB : (v.bullets.any fun b =>
        b.collides_with (v.enemies[iE]).shape) = true :=
      List.any_eq_true.mpr ⟨_, hbmem, hover⟩
    have hanyE : (v.enemies.any fun e =>
        (v.bullets[jB]).collides_with e.shape) = true :=
      List.any_eq_true.mpr ⟨_, hemem, hover⟩
    refine ⟨?_, ?_, ?_⟩
    · intro e2 he2
      rw [resolvePhase_enemies, s1, List.getElem?_map,
        List.getElem?_eq_getElem hiE, Option.map_some'] at he2
      obtain rfl := Option.some.inj he2
      rw [resolveEnemyStep_shape, if_pos hanyB]
    · intro b2 hb2
      rw [resolvePhase_bullets, s2, List.getElem?_map,
        List.getElem?_eq_getElem hjB, Option.map_some'] at hb2
      obtain rfl := Option.some.inj hb2
      rw [if_pos hanyE]
    · rw [resolvePhase_explosions, s4]
      apply List.mem_append_right
      exact List.mem_flatMap.mpr ⟨_, hemem,
        List.mem_map.mpr ⟨_, List.mem_filter.mpr ⟨hbmem, hover⟩, rfl⟩⟩
  · rw [resolvePhase_score]
    exact s3
  · rw [resolvePhase_high_score, resolvePhase_score, h1, s3]
  · rw [resolvePhase_beaten, resolvePhase_score, h2, s3]

/-- Witness for C3: scenario 1 — an enemy of size 40 overlapped by one
bullet yields score 40 and an explosion at the bullet's position. -/
theorem C3_bullet_enemy_resolution_witness :
    (resolvePhase varsC3).score = 40 ∧
    mkExpl eSq40 bullet32 ∈ (resolvePhase varsC3).explosions := by
  have T := C3_bullet_enemy_resolution varsC3 input0 (by norm_num [varsC3, vars0])
  constructor
  · rw [T.2.1]
    norm_num [varsC3, vars0, pairScore, enemy40, eSq40, bullet32,
      Shape.collides_with, Shape.rect, GRect.overlaps, roundNat]
    decide
  · have hp := T.1 0 0 (by norm_num [varsC3, vars0])
      (by norm_num [varsC3, vars0])
      (by norm_num [varsC3, vars0, enemy40, eSq40, bullet32,
        Shape.collides_with, Shape.rect, GRect.overlaps])
    have := hp.2.2
    simpa [varsC3, vars0, enemy40] using this

end BG

namespace BG

/-- C5 as stated fails: one bullet overlapping two enemies is marked by
two pairings in the same pass, and marking the already-collided bullet
again does have additional effects — the score rises by both enemy
sizes (80, not 40) and two explosions are pushed. -/
theorem C5_counterexample :
    bullet32.collides_with enemy40.shape = true ∧
    bullet32.collides_with enemy40b.shape = true ∧
    (resolvePhase varsC5).score = 80 ∧
    (resolvePhase varsC5).explosions.length = 2 := by
  refine ⟨?_, ?_, ?_, ?_⟩
  · norm_num [bullet32, enemy40, eSq40, Shape.collides_with, Shape.rect,
      GRect.overlaps]
  · norm_num [bullet32, enemy40b, Shape.collides_with, Shape.rect,
      GRect.overlaps]
  · rw [resolvePhase_score, (resolveEnemies_spec _ _ _ _ _ _).2.2.1]
    norm_num [varsC5, vars0, pairScore, enemy40, enemy40b, eSq40, bullet32,
      Shape.collides_with, Shape.rect, GRect.overlaps, roundNat]
    decide
  · rw [resolvePhase_explosions, (resolveEnemies_spec _ _ _ _ _ _).2.2.2.1]
    norm_num [varsC5, vars0, enemy40, enemy40b, eSq40, bullet32,
      Shape.collides_with, Shape.rect, GRect.overlaps, List.flatMap_cons,
      List.flatMap_nil, List.filter_cons]

/-- C5 amended: within one resolution pass the collided flag itself is
idempotent — a bullet's final flag is its old flag or the fact that some
enemy overlaps it, and re-marking an already marked shape is a no-op on
the flag — but each overlapping pairing has its own effect: the score
grows by one rounded enemy size per overlapping pairing and one
explosion is pushed per pairing, so a bullet overlapped by several
enemies contributes several times. -/
theorem C5_amended_marking (v : GameVars) :
    (∀ b : Shape, b.collided = true → ({ b with collided := true } : Shape) = b) ∧
    (resolvePhase v).bullets = (v.bullets.map fun b =>
      if v.enemies.any (fun e => b.collides_with e.shape) then
        { b with collided := true } else b) ∧
    (resolvePhase v).score = v.score + pairScore v.enemies v.bullets ∧
    (resolvePhase v).explosions.length = v.explosions.length +
      (v.enemies.map fun e =>
        v.bullets.countP fun b => b.collides_with e.shape).sum := by
  obtain ⟨s1, s2, s3, s4, s5⟩ := resolveEnemies_spec v.circle v.score
    v.high_score v.high_score_beaten v.enemies v.bullets
  refine ⟨?_, ?_, ?_, ?_⟩
  · rintro ⟨sz, sp, x, y, w, h, c, col⟩ hb
    simp only at hb
    subst hb
    rfl
  · rw [resolvePhase_bullets]
    exact s2
  · rw [resolvePhase_score]
    exact s3
  · rw [resolvePhase_explosions, s4, List.length_append]
    congr 1
    rw [List.length_flatMap]
    congr 1
    refine List.map_congr_left fun e _ => ?_
    simp only [Function.comp_apply]
    rw [List.length_map]
    exact (List.countP_eq_length_filter _ _).symm

/-- Witness for the amended C5: re-marking an already marked bullet is a
no-op on the flag, while the double-overlap state gains the pair score. -/
theorem C5_amended_marking_witness :
    ({ ({ bullet32 with collided := true } : Shape) with
        collided := true } : Shape) =
      ({ bullet32 with collided := true } : Shape) ∧
    (resolvePhase varsC5).score =
      varsC5.score + pairScore varsC5.enemies varsC5.bullets :=
  ⟨(C5_amended_marking varsC5).1 { bullet32 with collided := true } rfl,
   (C5_amended_marking varsC5).2.2.1⟩

end BG

namespace BG

theorem ownedCount_cons (b : EnemyBullet) (bs : List EnemyBullet) (id : Nat) :
    ownedCount (b :: bs) id =
      ownedCount bs id + (if b.enemy_id = id then 1 else 0) := by
  unfold ownedCount
  rw [List.countP_cons]
  by_cases hb : b.enemy_id = id
  · simp [hb]
  · simp [hb]

/-- Looking up an absent owner is a no-op: the decrement is skipped and
no underflow is reported. -/
theorem decFirst_no_match (es : List Enemy) (id : Nat)
    (h : ∀ e ∈ es, e.id ≠ id) : decFirst es id = (es, false) := by
  induction es with
  | nil => rfl
  | cons e es ih =>
    unfold decFirst
    rw [if_neg (h e (List.mem_cons_self e es) )]
    rw [ih fun e2 he2 => h e2 (List.mem_cons_of_mem e he2)]

/-- With pairwise-distinct identifiers, the first-match decrement is a
pointwise map. -/
theorem decFirst_eq_map (es : List Enemy) (id : Nat)
    (hids : es.Pairwise fun a b => a.id ≠ b.id) :
    (decFirst es id).1 = es.map fun e =>
      if e.id = id then { e with bullet_count := e.bullet_count - 1 } else e := by
  induction es with
  | nil => rfl
  | cons e es ih =>
    unfold decFirst
    rw [List.pairwise_cons] at hids
    by_cases he : e.id = id
    · rw [if_pos he]
      dsimp only
      rw [List.map_cons, if_pos he]
      congr 1
      have hnone : ∀ e2 ∈ es, ¬(e2.id = id) := fun e2 he2 h2 =>
        hids.1 e2 he2 (he.trans h2.symm)
      have htail : ∀ l : List Enemy, (∀ e2 ∈ l, ¬(e2.id = id)) →
          List.map (fun e2 : Enemy => if e2.id = id then
            { e2 with bullet_count := e2.bullet_count - 1 } else e2) l = l := by
        intro l
        induction l with
        | nil => intro h2
                 rfl
        | cons a l ihl =>
          intro hl
          rw [List.map_cons, if_neg (hl a (List.mem_cons_self a l)),
            ihl fun x hx => hl x (List.mem_cons_of_mem a hx)]
      exact (htail es hnone).symm
    · rw [if_neg he]
      dsimp only
      rw [List.map_cons, if_neg he, ih hids.2]

/-- The decrement never underflows when every matching enemy owns at
least one bullet. -/
theorem decFirst_flag (es : List Enemy) (id : Nat)
    (h : ∀ e ∈ es, e.id = id → 1 ≤ e.bullet_count) :
    (decFirst es id).2 = false := by
  induction es with
  | nil => rfl
  | cons e es ih =>
    unfold decFirst
    by_cases he : e.id = id
    · rw [if_pos he]
      have := h e (List.mem_cons_self e es) he
      simp only [decide_eq_false_iff_not]
      omega
    · rw [if_neg he]
      exact ih fun e2 he2 => h e2 (List.mem_cons_of_mem e he2)

/-- Identifiers are untouched by the first-match decrement. -/
theorem decFirst_ids (es : List Enemy) (id : Nat) :
    (decFirst es id).1.map Enemy.id = es.map Enemy.id := by
  induction es with
  | nil => rfl
  | cons e es ih =>
    unfold decFirst
    by_cases he : e.id = id
    · rw [if_pos he]
      rfl
    · rw [if_neg he]
      dsimp only
      rw [List.map_cons, List.map_cons, ih]

end BG

namespace BG

/-- The per-enemy map applied by `decFirst` keeps the identifier. -/
theorem decMap_id (id : Nat) (e : Enemy) :
    (if e.id = id then
      { e with bullet_count := e.bullet_count - 1 } else e).id = e.id := by
  split <;> rfl

/-- The per-enemy map applied by `decFirst` keeps the shape. -/
theorem decMap_shape (id : Nat) (e : Enemy) :
    (if e.id = id then
      { e with bullet_count := e.bullet_count - 1 } else e).shape = e.shape := by
  split <;> rfl

/-- The per-enemy map applied by `decFirst` never increases the count. -/
theorem decMap_count_le (id : Nat) (e : Enemy) :
    (if e.id = id then
      { e with bullet_count := e.bullet_count - 1 } else e).bullet_count ≤
      e.bullet_count := by
  split
  · show e.bullet_count - 1 ≤ e.bullet_count
    omega
  · exact le_refl _

/-- Master specification of the enemy-bullet prune pass under distinct
identifiers and exact ownership counts (generalised by an `extra`
function so the induction goes through): it keeps exactly the on-screen
bullets, reports no underflow, keeps the enemy identifiers in order,
maintains the exact ownership counts against the kept bullets, and never
increases any enemy's count or changes its shape. -/
theorem pruneEB_spec (H : ℚ) (ebs : List EnemyBullet) :
    ∀ (es : List Enemy) (extra : Nat → Nat),
      (es.Pairwise fun a b => a.id ≠ b.id) →
      (∀ e ∈ es, e.bullet_count = ownedCount ebs e.id + extra e.id) →
      (pruneEB H ebs es).1 =
        ebs.filter (fun b => decide (b.shape.y < H + b.shape.size)) ∧
      (pruneEB H ebs es).2.2 = false ∧
      ((pruneEB H ebs es).2.1.map Enemy.id = es.map Enemy.id) ∧
      (∀ e ∈ (pruneEB H ebs es).2.1,
        e.bullet_count = ownedCount (pruneEB H ebs es).1 e.id + extra e.id) ∧
      (∀ e2 ∈ (pruneEB H ebs es).2.1, ∃ e ∈ es, e.id = e2.id ∧
        e2.bullet_count ≤ e.bullet_count ∧ e2.shape = e.shape) := by
  induction ebs with
  | nil =>
    intro es extra hids hcount
    exact ⟨rfl, rfl, rfl, fun e he => hcount e he,
      fun e2 he2 => ⟨e2, he2, rfl, le_refl _, rfl⟩⟩
  | cons b bs ih =>
    intro es extra hids hcount
    unfold pruneEB
    by_cases hkeep : b.shape.y < H + b.shape.size
    · rw [if_pos hkeep]
      dsimp only
      have hside : ∀ e ∈ es, e.bullet_count = ownedCount bs e.id +
          ((fun id2 => extra id2 + (if b.enemy_id = id2 then 1 else 0)) e.id) := by
        intro e he
        dsimp only
        have hc := hcount e he
        rw [ownedCount_cons] at hc
        omega
      obtain ⟨p1, p2, p3, p4, p5⟩ := ih es
        (fun id2 => extra id2 + (if b.enemy_id = id2 then 1 else 0)) hids hside
      refine ⟨?_, p2, p3, ?_, p5⟩
      · rw [p1, List.filter_cons_of_pos]
        exact decide_eq_true hkeep
      · intro e he
        have h4 := p4 e he
        rw [ownedCount_cons]
        omega
    · rw [if_neg hkeep]
      dsimp only
      have hflag : (decFirst es b.enemy_id).2 = false := by
        apply decFirst_flag
        intro e he heid
        have hc := hcount e he
        rw [ownedCount_cons, if_pos heid.symm] at hc
        omega
      have hd := decFirst_eq_map es b.enemy_id hids
      have hids1 : (decFirst es b.enemy_id).1.Pairwise
          fun a b2 => a.id ≠ b2.id := by
        rw [hd, List.pairwise_map]
        refine hids.imp ?_
        intro a b2 hab
        rw [decMap_id, decMap_id]
        exact hab
      have hcount1 : ∀ e1 ∈ (decFirst es b.enemy_id).1,
          e1.bullet_count = ownedCount bs e1.id + extra e1.id := by
        rw [hd]
        intro e1 he1
        obtain ⟨e, he, rfl⟩ := List.mem_map.mp he1
        rw [decMap_id]
        have hc := hcount e he
        rw [ownedCount_cons] at hc
        by_cases heid : e.id = b.enemy_id
        · rw [if_pos heid]
          show e.bullet_count - 1 = ownedCount bs e.id + extra e.id
          rw [if_pos heid.symm] at hc
          omega
        · rw [if_neg heid]
          rw [if_neg fun h => heid h.symm] at hc
          omega
      obtain ⟨p1, p2, p3, p4, p5⟩ :=
        ih (decFirst es b.enemy_id).1 extra hids1 hcount1
      refine ⟨?_, ?_, ?_, p4, ?_⟩
      · rw [p1, List.filter_cons_of_neg]
        simp [hkeep]
      · rw [hflag, p2]
        rfl
      · rw [p3, decFirst_ids]
      · intro e2 he2
        obtain ⟨e1, he1, hid1, hcnt1, hshp1⟩ := p5 e2 he2
        rw [hd] at he1
        obtain ⟨e, he, rfl⟩ := List.mem_map.mp he1
        refine ⟨e, he, ?_, ?_, ?_⟩
        · rw [← hid1, decMap_id]
        · exact le_trans hcnt1 (decMap_count_le _ _)
        · rw [hshp1, decMap_shape]

end BG

namespace BG

theorem fireCond_count_lt (c : Shape) (e : Enemy) (h : fireCond c e = true) :
    e.bullet_count < 1 := by
  unfold fireCond at h
  simp only [Bool.and_eq_true, decide_eq_true_eq] at h
  exact h.2

theorem countP_id_fire (c : Shape) (e : Enemy) : ∀ es : List Enemy,
    (es.Pairwise fun a b => a.id ≠ b.id) → e ∈ es →
    List.countP (fun e2 => decide (e2.id = e.id) && fireCond c e2) es =
      if fireCond c e then 1 else 0 := by
  intro es
  induction es with
  | nil =>
    intro hids he
    cases he
  | cons a es ih =>
    intro hids he
    rw [List.pairwise_cons] at hids
    rw [List.countP_cons]
    rcases List.mem_cons.mp he with rfl | hmem
    · have htail : List.countP
          (fun e2 => decide (e2.id = e.id) && fireCond c e2) es = 0 := by
        rw [List.countP_eq_zero]
        intro e2 he2
        simp only [Bool.and_eq_true, decide_eq_true_eq, not_and]
        intro h1
        exact absurd h1.symm (hids.1 e2 he2)
      rw [htail]
      simp
    · have hne : a.id ≠ e.id := hids.1 e hmem
      have hhead : (decide (a.id = e.id) && fireCond c a) = false := by
        simp [hne]
      rw [hhead, ih hids.2 hmem]
      simp

/-- Owned-bullet count contributed by the resolver's fired bullets: one
for the firing enemy itself, none for anyone else (distinct ids). -/
theorem ownedCount_fired (c : Shape) (es : List Enemy) (e : Enemy)
    (hids : es.Pairwise fun a b => a.id ≠ b.id) (he : e ∈ es) :
    ownedCount ((es.filter fun e2 => fireCond c e2).map mkEnemyBullet) e.id =
      if fireCond c e then 1 else 0 := by
  unfold ownedCount
  rw [List.countP_map, List.countP_filter]
  exact countP_id_fire c e es hids he

theorem pausePhase_entities (i : FrameInput) (v : GameVars) :
    (pausePhase i v).enemies = v.enemies ∧
    (pausePhase i v).enemy_bullets = v.enemy_bullets ∧
    (pausePhase i v).next_enemy_id = v.next_enemy_id := by
  unfold pausePhase
  split <;> exact ⟨rfl, rfl, rfl⟩

theorem movePhase_entities (i : FrameInput) (v : GameVars) :
    (movePhase i v).enemies = v.enemies ∧
    (movePhase i v).enemy_bullets = v.enemy_bullets ∧
    (movePhase i v).next_enemy_id = v.next_enemy_id := ⟨rfl, rfl, rfl⟩

theorem firePhase_entities (i : FrameInput) (v : GameVars) :
    (firePhase i v).enemies = v.enemies ∧
    (firePhase i v).enemy_bullets = v.enemy_bullets ∧
    (firePhase i v).next_enemy_id = v.next_enemy_id := by
  unfold firePhase
  split <;> exact ⟨rfl, rfl, rfl⟩

theorem shipHitPhase_entities (v : GameVars) :
    (shipHitPhase v).1.enemies = v.enemies ∧
    (shipHitPhase v).1.enemy_bullets = v.enemy_bullets ∧
    (shipHitPhase v).1.next_enemy_id = v.next_enemy_id := by
  unfold shipHitPhase
  split <;> exact ⟨rfl, rfl, rfl⟩

theorem ebHitPhase_entities (v : GameVars) :
    (ebHitPhase v).1.enemies = v.enemies ∧
    (ebHitPhase v).1.enemy_bullets = v.enemy_bullets ∧
    (ebHitPhase v).1.next_enemy_id = v.next_enemy_id := by
  rw [ebHitPhase_fst]
  split <;> exact ⟨rfl, rfl, rfl⟩

/-- The bookkeeping invariant only concerns enemies, enemy bullets and
the identifier counter, so it transports along equal fields. -/
theorem GoodState_of_eq (v w : GameVars) (h1 : w.enemies = v.enemies)
    (h2 : w.enemy_bullets = v.enemy_bullets)
    (h3 : w.next_enemy_id = v.next_enemy_id) (hv : GoodState v) :
    GoodState w := by
  unfold GoodState CountInv CountLe IdsOk at hv ⊢
  rw [h1, h2, h3]
  exact hv

/-- Empty collections satisfy the bookkeeping invariant. -/
theorem GoodState_empty (w : GameVars) (h1 : w.enemies = [])
    (h2 : w.enemy_bullets = []) : GoodState w := by
  unfold GoodState CountInv CountLe IdsOk
  rw [h1, h2]
  simp

theorem spawnPhase_good (i : FrameInput) (v : GameVars) (hv : GoodState v) :
    GoodState (spawnPhase i v) := by
  obtain ⟨hinv, hle, hp, hlt, hbo⟩ := hv
  unfold spawnPhase
  split
  · refine ⟨?_, ?_, ?_, ?_, ?_⟩
    · intro e he
      rcases List.mem_append.mp he with h1 | h1
      · exact hinv e h1
      · rw [List.mem_singleton] at h1
        subst h1
        show 0 = ownedCount v.enemy_bullets v.next_enemy_id
        unfold ownedCount
        rw [eq_comm, List.countP_eq_zero]
        intro b hb
        simp only [decide_eq_true_eq]
        exact Nat.ne_of_lt (hbo b hb)
    · intro e he
      rcases List.mem_append.mp he with h1 | h1
      · exact hle e h1
      · rw [List.mem_singleton] at h1
        subst h1
        show 0 ≤ 1
        omega
    · rw [List.pairwise_append]
      refine ⟨hp, List.pairwise_singleton _ _, ?_⟩
      intro a ha b hb
      rw [List.mem_singleton] at hb
      subst hb
      exact Nat.ne_of_lt (hlt a ha)
    · intro e he
      rcases List.mem_append.mp he with h1 | h1
      · exact Nat.lt_succ_of_lt (hlt e h1)
      · rw [List.mem_singleton] at h1
        subst h1
        exact Nat.lt_succ_self _
    · intro b hb
      exact Nat.lt_succ_of_lt (hbo b hb)
  · exact ⟨hinv, hle, hp, hlt, hbo⟩

theorem ownedCount_map_shape (dt : ℚ) (ebs : List EnemyBullet) (id : Nat) :
    ownedCount (ebs.map fun b =>
      { b with shape := { b.shape with y := b.shape.y + b.shape.speed * dt } })
      id = ownedCount ebs id := by
  unfold ownedCount
  rw [List.countP_map]
  rfl

theorem integratePhase_good (i : FrameInput) (v : GameVars) (hv : GoodState v) :
    GoodState (integratePhase i v) := by
  obtain ⟨hinv, hle, hp, hlt, hbo⟩ := hv
  unfold integratePhase
  refine ⟨?_, ?_, ?_, ?_, ?_⟩
  · intro e he
    obtain ⟨e0, he0, rfl⟩ := List.mem_map.mp he
    show e0.bullet_count = _
    rw [ownedCount_map_shape]
    exact hinv e0 he0
  · intro e he
    obtain ⟨e0, he0, rfl⟩ := List.mem_map.mp he
    exact hle e0 he0
  · rw [List.pairwise_map]
    exact hp.imp fun h => h
  · intro e he
    obtain ⟨e0, he0, rfl⟩ := List.mem_map.mp he
    exact hlt e0 he0
  · intro b hb
    obtain ⟨b0, hb0, rfl⟩ := List.mem_map.mp hb
    exact hbo b0 hb0

end BG

namespace BG

theorem resolvePhase_good (v : GameVars) (hv : GoodState v) :
    GoodState (resolvePhase v) := by
  obtain ⟨hinv, hle, hp, hlt, hbo⟩ := hv
  obtain ⟨s1, s2, s3, s4, s5⟩ := resolveEnemies_spec v.circle v.score
    v.high_score v.high_score_beaten v.enemies v.bullets
  have hen : (resolvePhase v).enemies =
      v.enemies.map (resolveEnemyStep v.circle v.bullets) := by
    rw [resolvePhase_enemies, s1]
  have heb : (resolvePhase v).enemy_bullets = v.enemy_bullets ++
      ((v.enemies.filter fun e2 => fireCond v.circle e2).map mkEnemyBullet) := by
    rw [resolvePhase_enemy_bullets, s5]
  have hnext : (resolvePhase v).next_enemy_id = v.next_enemy_id := rfl
  refine ⟨?_, ?_, ?_, ?_, ?_⟩
  · intro e he
    rw [hen] at he
    obtain ⟨e0, he0, rfl⟩ := List.mem_map.mp he
    rw [resolveEnemyStep_count, resolveEnemyStep_id, heb]
    have h1 := hinv e0 he0
    have h2 := ownedCount_fired v.circle v.enemies e0 hp he0
    unfold ownedCount at h1 h2 ⊢
    rw [List.countP_append]
    omega
  · intro e he
    rw [hen] at he
    obtain ⟨e0, he0, rfl⟩ := List.mem_map.mp he
    rw [resolveEnemyStep_count]
    by_cases hf : fireCond v.circle e0 = true
    · have := fireCond_count_lt v.circle e0 hf
      rw [if_pos hf]
      omega
    · rw [if_neg hf]
      have := hle e0 he0
      omega
  · rw [hen, List.pairwise_map]
    refine hp.imp ?_
    intro a b h
    rw [resolveEnemyStep_id, resolveEnemyStep_id]
    exact h
  · intro e he
    rw [hen] at he
    obtain ⟨e0, he0, rfl⟩ := List.mem_map.mp he
    rw [hnext, resolveEnemyStep_id]
    exact hlt e0 he0
  · intro b hb
    rw [heb] at hb
    rw [hnext]
    rcases List.mem_append.mp hb with h1 | h1
    · exact hbo b h1
    · obtain ⟨e0, he0, rfl⟩ := List.mem_map.mp h1
      show e0.id < v.next_enemy_id
      exact hlt e0 (List.mem_filter.mp he0).1
  
theorem prunePhase_good (i : FrameInput) (v : GameVars) (hv : GoodState v) :
    GoodState (prunePhase i v).1 ∧ (prunePhase i v).2 = false := by
  obtain ⟨hinv, hle, hp, hlt, hbo⟩ := hv
  have hcount0 : ∀ e ∈ v.enemies, e.bullet_count =
      ownedCount v.enemy_bullets e.id + (fun id2 => 0) e.id := by
    intro e he
    show e.bullet_count = ownedCount v.enemy_bullets e.id + 0
    have := hinv e he
    omega
  obtain ⟨p1, p2, p3, p4, p5⟩ := pruneEB_spec i.screen_height v.enemy_bullets
    v.enemies (fun id2 => 0) hp hcount0
  have hen : (prunePhase i v).1.enemies =
      ((pruneEB i.screen_height v.enemy_bullets v.enemies).2.1.filter
        fun e => decide (e.shape.y < i.screen_height + e.shape.size)).filter
        fun e => !e.shape.collided := rfl
  have heb : (prunePhase i v).1.enemy_bullets =
      (pruneEB i.screen_height v.enemy_bullets v.enemies).1 := rfl
  have hnext : (prunePhase i v).1.next_enemy_id = v.next_enemy_id := rfl
  have hmem : ∀ e ∈ (prunePhase i v).1.enemies,
      e ∈ (pruneEB i.screen_height v.enemy_bullets v.enemies).2.1 := by
    intro e he
    rw [hen] at he
    exact (List.mem_filter.mp (List.mem_filter.mp he).1).1
  constructor
  · refine ⟨?_, ?_, ?_, ?_, ?_⟩
    · intro e he
      have h4 := p4 e (hmem e he)
      rw [heb]
      omega
    · intro e he
      obtain ⟨e0, he0, hid, hcnt, hshp⟩ := p5 e (hmem e he)
      exact le_trans hcnt (hle e0 he0)
    · have h1 : (v.enemies.map Enemy.id).Pairwise (fun a b => a ≠ b) := by
        rw [List.pairwise_map]
        exact hp
      rw [← p3, List.pairwise_map] at h1
      rw [hen]
      exact List.Pairwise.sublist
        ((List.filter_sublist _).trans (List.filter_sublist _)) h1
    · intro e he
      obtain ⟨e0, he0, hid, _, _⟩ := p5 e (hmem e he)
      rw [hnext, ← hid]
      exact hlt e0 he0
    · intro b hb
      rw [heb, p1] at hb
      rw [hnext]
      exact hbo b (List.mem_filter.mp hb).1
  · show (pruneEB i.screen_height v.enemy_bullets v.enemies).2.2 = false
    exact p2

theorem playingFrame_good (i : FrameInput) (v : GameVars) (hv : GoodState v) :
    GoodState (playingFrame i v).vars ∧ (playingFrame i v).underflow = false := by
  have g1 : GoodState (pausePhase i v) := by
    obtain ⟨h1, h2, h3⟩ := pausePhase_entities i v
    exact GoodState_of_eq v _ h1 h2 h3 hv
  have g2 : GoodState (movePhase i (pausePhase i v)) := by
    obtain ⟨h1, h2, h3⟩ := movePhase_entities i _
    exact GoodState_of_eq _ _ h1 h2 h3 g1
  have g3 : GoodState (firePhase i (movePhase i (pausePhase i v))) := by
    obtain ⟨h1, h2, h3⟩ := firePhase_entities i _
    exact GoodState_of_eq _ _ h1 h2 h3 g2
  have g4 := spawnPhase_good i _ g3
  have g5 : GoodState (preCollisionVars i v) := integratePhase_good i _ g4
  have g6 : GoodState (shipHitPhase (preCollisionVars i v)).1 := by
    obtain ⟨h1, h2, h3⟩ := shipHitPhase_entities (preCollisionVars i v)
    exact GoodState_of_eq _ _ h1 h2 h3 g5
  have g7 := resolvePhase_good _ g6
  have g8 : GoodState
      (ebHitPhase (resolvePhase (shipHitPhase (preCollisionVars i v)).1)).1 := by
    obtain ⟨h1, h2, h3⟩ := ebHitPhase_entities _
    exact GoodState_of_eq _ _ h1 h2 h3 g7
  have g9 := prunePhase_good i _ g8
  exact ⟨g9.1, g9.2⟩

/-- Every state reachable in play satisfies the bookkeeping invariant. -/
theorem reachable_good (v : GameVars) (h : Reachable v) : GoodState v := by
  induction h with
  | enter i v0 hplay =>
    unfold mainMenuFrame
    rw [if_pos hplay]
    exact GoodState_empty _ rfl rfl
  | step i v hv ih =>
    unfold gameFrame
    split
    · show GoodState (mainMenuFrame i v)
      unfold mainMenuFrame
      split
      · exact GoodState_empty _ rfl rfl
      · exact GoodState_of_eq v _ rfl rfl rfl ih
    · exact (playingFrame_good i v ih).1
    · show GoodState (pausedFrame i v)
      unfold pausedFrame
      split
      · exact GoodState_of_eq v _ rfl rfl rfl ih
      · exact ih
    · show GoodState (gameOverFrame i v)
      unfold gameOverFrame
      split
      · exact GoodState_of_eq v _ rfl rfl rfl ih
      · exact ih

end BG

namespace BG

/-- C4: in every reachable play state, every enemy's `bullet_count` is
between 0 and 1 and equals the number of live bullets it owns; during a
frame's prune pass the `bullet_count -= 1` decrement is only applied via
an identifier lookup that is a no-op when the owner is gone, and it
never underflows. -/
theorem C4_bullet_count_safety :
    (∀ v : GameVars, Reachable v →
      GoodState v ∧ ∀ e ∈ v.enemies, e.bullet_count ≤ 1) ∧
    (∀ (i : FrameInput) (v : GameVars), GoodState v →
      (playingFrame i v).underflow = false) ∧
    (∀ (es : List Enemy) (id : Nat), (∀ e ∈ es, e.id ≠ id) →
      decFirst es id = (es, false)) := by
  refine ⟨?_, ?_, ?_⟩
  · intro v hv
    have hg := reachable_good v hv
    exact ⟨hg, hg.2.1⟩
  · intro i v hg
    exact (playingFrame_good i v hg).2
  · exact decFirst_no_match

/-- Witness for C4: the state entered by clicking Play from a stale menu
satisfies the invariant, its next frame reports no underflow, and the
absent-owner decrement is a no-op on a concrete list. -/
theorem C4_bullet_count_safety_witness :
    GoodState (mainMenuFrame inputPlay varsMenu) ∧
    (playingFrame input0 (mainMenuFrame inputPlay varsMenu)).underflow = false ∧
    decFirst [enemy40] 5 = ([enemy40], false) := by
  have h1 := C4_bullet_count_safety.1 (mainMenuFrame inputPlay varsMenu)
    (Reachable.enter inputPlay varsMenu (by norm_num [inputPlay, input0]))
  refine ⟨h1.1, C4_bullet_count_safety.2.1 input0 _ h1.1, ?_⟩
  exact C4_bullet_count_safety.2.2 [enemy40] 5
    (by norm_num [enemy40])

end BG

namespace BG

theorem storeGet_set (st : Store) (k v : String) :
    storeGet (storeSet st k v) k = some v := by
  induction st with
  | nil =>
    show storeGet [(k, v)] k = some v
    unfold storeGet
    rw [if_pos rfl]
  | cons p st ih =>
    obtain ⟨k1, v1⟩ := p
    unfold storeSet
    by_cases hk : k1 = k
    · rw [if_pos hk]
      unfold storeGet
      rw [if_pos rfl]
    · rw [if_neg hk]
      unfold storeGet
      rw [if_neg hk]
      exact ih

theorem natDigitsRev_lt (n : Nat) : ∀ d ∈ natDigitsRev n, d < 10 := by
  induction n using Nat.strong_induction_on with
  | _ n ih =>
    by_cases hn : n = 0
    · subst hn
      unfold natDigitsRev
      simp
    · unfold natDigitsRev
      rw [dif_neg hn]
      intro d hd
      rcases List.mem_cons.mp hd with rfl | hd2
      · exact Nat.mod_lt n (by norm_num)
      · exact ih (n / 10) (Nat.div_lt_self (Nat.pos_of_ne_zero hn)
          (by norm_num)) d hd2

theorem digitsVal_append (xs ys : List Nat) :
    digitsVal (xs ++ ys) = digitsVal xs * 10 ^ ys.length + digitsVal ys := by
  induction xs with
  | nil =>
    show digitsVal ys = 0 * 10 ^ ys.length + digitsVal ys
    omega
  | cons d xs ih =>
    show d * 10 ^ (xs ++ ys).length + digitsVal (xs ++ ys) = _
    rw [ih, List.length_append]
    show d * 10 ^ (xs.length + ys.length) + _ =
      (d * 10 ^ xs.length + digitsVal xs) * 10 ^ ys.length + digitsVal ys
    rw [pow_add]
    ring

theorem digitsVal_reverse_natDigitsRev (n : Nat) :
    digitsVal (natDigitsRev n).reverse = n := by
  induction n using Nat.strong_induction_on with
  | _ n ih =>
    by_cases hn : n = 0
    · subst hn
      unfold natDigitsRev
      simp
      rfl
    · unfold natDigitsRev
      rw [dif_neg hn]
      rw [List.reverse_cons, digitsVal_append]
      have hrec := ih (n / 10)
        (Nat.div_lt_self (Nat.pos_of_ne_zero hn) (by norm_num))
      rw [hrec]
      show n / 10 * 10 ^ (1 : Nat) + (n % 10 * 10 ^ (0 : Nat) + 0) = n
      simp only [pow_one, pow_zero]
      omega

theorem charDigit_ofNat (d : Nat) (h : d < 10) :
    charDigit (Char.ofNat (48 + d)) = some d := by
  interval_cases d <;> rfl

theorem ofNat_digit_ne_plus (d : Nat) (h : d < 10) :
    ¬(Char.ofNat (48 + d) = '+') := by
  interval_cases d <;> decide

theorem parseGo_digits : ∀ (ds : List Nat) (acc : Nat),
    (∀ d ∈ ds, d < 10) →
    acc * 10 ^ ds.length + digitsVal ds < 4294967296 →
    parseGo (ds.map fun d => Char.ofNat (48 + d)) acc =
      some (acc * 10 ^ ds.length + digitsVal ds) := by
  intro ds
  induction ds with
  | nil =>
    intro acc hd hb
    show some acc = some (acc * 10 ^ (0 : Nat) + 0)
    simp
  | cons d ds ih =>
    intro acc hd hb
    have hdlt : d < 10 := hd d (List.mem_cons_self d ds)
    have hpow : 0 < 10 ^ ds.length := Nat.pos_pow_of_pos _ (by norm_num)
    have hsucc : (10 : Nat) ^ (ds.length + 1) = 10 ^ ds.length * 10 :=
      pow_succ 10 ds.length
    have hval : digitsVal (d :: ds) = d * 10 ^ ds.length + digitsVal ds := rfl
    rw [List.map_cons]
    unfold parseGo
    rw [charDigit_ofNat d hdlt]
    dsimp only
    have hlen : (d :: ds).length = ds.length + 1 := rfl
    rw [hlen, hval] at hb
    have hcheck : acc * 10 + d < 4294967296 := by
      have h1 : acc * 10 + d ≤ (acc * 10 + d) * 10 ^ ds.length := by
        calc acc * 10 + d = (acc * 10 + d) * 1 := by omega
          _ ≤ (acc * 10 + d) * 10 ^ ds.length :=
            Nat.mul_le_mul_left _ hpow
      have h2 : (acc * 10 + d) * 10 ^ ds.length ≤
          acc * 10 ^ (ds.length + 1) + (d * 10 ^ ds.length + digitsVal ds) := by
        rw [hsucc]
        ring_nf
        omega
      omega
    rw [if_pos hcheck]
    have hrec := ih (acc * 10 + d) (fun x hx => hd x (List.mem_cons_of_mem d hx))
      (by rw [hsucc] at hb
          ring_nf at hb ⊢
          omega)
    rw [hrec]
    congr 1
    rw [hlen, hval, hsucc]
    ring

end BG

namespace BG

theorem natDigitsRev_ne_nil (n : Nat) (hn : n ≠ 0) : natDigitsRev n ≠ [] := by
  unfold natDigitsRev
  rw [dif_neg hn]
  simp

/-- Parsing the decimal encoding of a `u32` value returns exactly that
value. -/
theorem parseU32_u32ToString (n : Nat) (h : n < 4294967296) :
    parseU32 (u32ToString n) = some n := by
  by_cases hn : n = 0
  · subst hn
    rfl
  · unfold u32ToString
    rw [if_neg hn]
    have hne : (natDigitsRev n).reverse ≠ [] := by
      simp [natDigitsRev_ne_nil n hn]
    obtain ⟨d0, dtail, hds⟩ := List.exists_cons_of_ne_nil hne
    have hdlt : ∀ d ∈ (natDigitsRev n).reverse, d < 10 := fun d hd =>
      natDigitsRev_lt n d (List.mem_reverse.mp hd)
    have hval : digitsVal ((natDigitsRev n).reverse) = n :=
      digitsVal_reverse_natDigitsRev n
    unfold parseU32
    dsimp only
    rw [hds, List.map_cons]
    dsimp only
    rw [if_neg (ofNat_digit_ne_plus d0 (hdlt d0
      (hds ▸ List.mem_cons_self d0 dtail)))]
    have hdlt2 : ∀ d ∈ d0 :: dtail, d < 10 := hds ▸ hdlt
    have hval2 : digitsVal (d0 :: dtail) = n := hds ▸ hval
    have hgo := parseGo_digits (d0 :: dtail) 0 hdlt2
      (by rw [hval2]
          omega)
    rw [List.map_cons] at hgo
    rw [hgo, hval2]
    congr 1
    omega

/-- C9: `load_high_score` returns exactly the previously persisted value
(round trip through the decimal string encoding for every `u32`), 0 when
the "highscore" key is absent, and fails (the `unwrap` panics, modelled
as `none`) when the stored value does not parse as an unsigned
integer. -/
theorem C9_highscore_persistence :
    (∀ (n : Nat) (st : Store), n < 4294967296 →
      load_high_score (save_high_score n st) = some n) ∧
    (∀ st : Store, storeGet st "highscore" = none →
      load_high_score st = some 0) ∧
    (∀ (st : Store) (s : String), parseU32 s = none →
      load_high_score (storeSet st "highscore" s) = none) := by
  refine ⟨?_, ?_, ?_⟩
  · intro n st hn
    unfold load_high_score save_high_score
    rw [storeGet_set]
    show parseU32 (u32ToString n) = some n
    exact parseU32_u32ToString n hn
  · intro st h
    unfold load_high_score
    rw [h]
    rfl
  · intro st s h
    unfold load_high_score
    rw [storeGet_set]
    exact h

/-- Witness for C9: 12345 round-trips, an empty store loads 0, and a
malformed stored value ("abc") fails to load. -/
theorem C9_highscore_persistence_witness :
    load_high_score (save_high_score 12345 []) = some 12345 ∧
    load_high_score [] = some 0 ∧
    load_high_score (storeSet [] "highscore" "abc") = none := by
  refine ⟨C9_highscore_persistence.1 12345 [] (by norm_num),
    C9_highscore_persistence.2.1 [] rfl,
    C9_highscore_persistence.2.2 [] "abc" ?_⟩
  rfl

end BG
